import Mathlib

/-!
Chirpy: credential extraction, refresh tokens and the login handler.

A verification development over a shallow embedding of
`internal/auth/token.go`, `handlerLogin.go`, `handlerToken.go` and the chirp
creation of `chirps.go`.

Conventions of the embedding:

* A Go `string` is the list of runes that `for _, r := range s` yields
  (`GoString = List Nat`, a rune being its code point; a byte that is not part
  of a valid UTF-8 sequence shows as U+FFFD).  `lit "Bearer"` is the Go string
  literal with that text.
* A Go function returning `(string, error)` returns a pair whose second
  component is `none` for the `nil` error and `some msg` for
  `errors.New(msg)`.
* `http.Header` is a map from canonical header names to the list of values
  received under that name; a key that is absent maps to the empty list.
* The case tables of package `unicode` above ASCII are not reproduced; the
  function `tab : Nat → Nat` stands for `unicode.SimpleFold` on every rune
  above `MaxASCII` other than U+017F and U+212A, the two whose orbit enters
  ASCII and whose `caseOrbit` entries are written out.  Likewise
  `lowerTab : Nat → Nat` stands for `unicode.ToLower` above `MaxASCII`.  Every
  theorem holds for every `tab` and every `lowerTab`.
* A handler is a function from the store and the request to the response, the
  store afterwards and the list of credential-related calls it made.
-/

namespace Chirpy

/-! ## Go strings -/

/-- The runes of a Go string. -/
abbrev GoString := List Nat

/-- The Go string literal with the text `s`. -/
def lit (s : String) : GoString := s.toList.map Char.toNat

/-! ## Package `unicode` -/

/-- The constant `unicode.MaxRune`. -/
def MaxRune : Nat := 0x10FFFF

/-- The constant `unicode.MaxASCII`. -/
def MaxASCII : Nat := 0x7F

/-- The constant `unicode.MaxLatin1`. -/
def MaxLatin1 : Nat := 0xFF

/-- The constant `utf8.RuneSelf`. -/
def RuneSelf : Nat := 0x80

/-- The table `unicode.White_Space` without its Latin-1 part, as consulted by
`isExcludingLatin(White_Space, r)`. -/
def whiteSpaceExcludingLatin (r : Nat) : Bool :=
  r == 0x1680 || (0x2000 ≤ r && r ≤ 0x200A) || (0x2028 ≤ r && r ≤ 0x2029)
    || r == 0x202F || r == 0x205F || r == 0x3000

/-- The function `unicode.IsSpace`. -/
def IsSpace (r : Nat) : Bool :=
  if r ≤ MaxLatin1 then
    r == 0x09 || r == 0x0A || r == 0x0B || r == 0x0C || r == 0x0D || r == 0x20
      || r == 0x85 || r == 0xA0
  else whiteSpaceExcludingLatin r

/-- The table `unicode.asciiFold`: the next rune of the case orbit of an ASCII
rune.  `k` and `s` continue to the Kelvin sign and the long s. -/
def asciiFold (r : Nat) : Nat :=
  if 0x41 ≤ r ∧ r ≤ 0x5A then r + 0x20
  else if r = 0x6B then 0x212A
  else if r = 0x73 then 0x17F
  else if 0x61 ≤ r ∧ r ≤ 0x7A then r - 0x20
  else r

/-- The function `unicode.SimpleFold`.  `tab` is the part of the case tables
above ASCII that is not written out here. -/
def SimpleFold (tab : Nat → Nat) (r : Nat) : Nat :=
  if r > MaxRune then r
  else if r ≤ MaxASCII then asciiFold r
  else if r = 0x17F then 0x53
  else if r = 0x212A then 0x4B
  else tab r

/-! ## Package `strings` -/

/-- The function `strings.FieldsFunc`: the second argument is the span that is
open (`start >= 0`) with the runes it holds so far, or `none` (`start < 0`). -/
def FieldsFunc (f : Nat → Bool) : GoString → Option GoString → List GoString
  | [], none => []
  | [], some w => [w]
  | r :: rs, none => if f r then FieldsFunc f rs none else FieldsFunc f rs (some [r])
  | r :: rs, some w =>
      if f r then w :: FieldsFunc f rs none else FieldsFunc f rs (some (w ++ [r]))

/-- The function `strings.Fields`.  Its ASCII fast path splits around the ASCII
members of `unicode.IsSpace` and gives what `FieldsFunc(s, unicode.IsSpace)`
gives. -/
def Fields (s : GoString) : List GoString := FieldsFunc IsSpace s none

/-- The loop `for r != sr && r < tr { r = unicode.SimpleFold(r) }` of
`strings.EqualFold`: it walks the orbit of `sr`, whose runes are distinct, so
the number of runes bounds its iterations. -/
def foldWalk (tab : Nat → Nat) (sr tr : Nat) : Nat → Nat → Nat
  | 0, r => r
  | n + 1, r => if r ≠ sr ∧ r < tr then foldWalk tab sr tr n (SimpleFold tab r) else r

/-- The body of the rune loop of `strings.EqualFold`: whether the runes `sr`
and `tr` are equal under simple case folding. -/
def runeEqualFold (tab : Nat → Nat) (sr tr : Nat) : Bool :=
  if tr = sr then true
  else
    let lo := if tr < sr then tr else sr
    let hi := if tr < sr then sr else tr
    if hi < RuneSelf then
      decide (0x41 ≤ lo ∧ lo ≤ 0x5A ∧ hi = lo + 0x20)
    else
      foldWalk tab lo hi (MaxRune + 1) (SimpleFold tab lo) == hi

/-- The function `strings.EqualFold`. -/
def EqualFold (tab : Nat → Nat) : GoString → GoString → Bool
  | [], [] => true
  | [], _ :: _ => false
  | _ :: _, [] => false
  | sr :: s, tr :: t => if runeEqualFold tab sr tr then EqualFold tab s t else false

/-! ## Package `net/http` -/

/-- The type `http.Header`. -/
abbrev Header := String → List GoString

/-- The method `http.Header.Get`: the first value under the key, or `""`. -/
def Header.Get (h : Header) (key : String) : GoString :=
  match h key with
  | [] => []
  | v :: _ => v

/-! ## `internal/auth/token.go` -/

/-- The function `GetBearerToken`. -/
def GetBearerToken (tab : Nat → Nat) (headers : Header) : GoString × Option String :=
  let authHeader := headers.Get "Authorization"
  if authHeader = [] then ([], some "no auth header")
  else
    let fields := Fields authHeader
    if fields.length < 2 || !EqualFold tab (fields.getD 0 []) (lit "Bearer") then
      ([], some "invalid bearer request")
    else if fields.getD 1 [] = [] then ([], some "empty token")
    else (fields.getD 1 [], none)

/-- The function `GetAPIKey`. -/
def GetAPIKey (tab : Nat → Nat) (headers : Header) : GoString × Option String :=
  let header := headers.Get "Authorization"
  if header = [] then ([], some "no auth header")
  else
    let fields := Fields header
    if fields.length < 2 || !EqualFold tab (fields.getD 0 []) (lit "ApiKey") then
      ([], some "invalid apikey request")
    else (fields.getD 1 [], none)

/-! ## Vocabulary of the statements -/

/-- What ends a field: the end of the value, or a white-space rune. -/
def endsField (f : Nat → Bool) (tail : GoString) : Prop :=
  tail = [] ∨ ∃ c rest, tail = c :: rest ∧ f c = true

/-- A run of white space, possibly empty. -/
def spaceRun (ws : GoString) : Prop := ∀ c ∈ ws, IsSpace c = true

/-- A non-empty word without white space. -/
def word (w : GoString) : Prop := w ≠ [] ∧ ∀ c ∈ w, IsSpace c = false

/-- Further fields, each written after the white space that separates it from
what precedes. -/
def joinExtra : List (GoString × GoString) → GoString
  | [] => []
  | (sep, fld) :: more => sep ++ fld ++ joinExtra more

/-- A header map holding one `Authorization` value. -/
def authHeaders (v : GoString) : Header :=
  fun key => if key = "Authorization" then [v] else []

/-! ## Package `encoding/hex` and `MakeRefreshToken` -/

/-- A Go `byte`. -/
abbrev Byte := Fin 256

/-- The constant `hextable` of `encoding/hex`. -/
def hextable : GoString := lit "0123456789abcdef"

/-- The function `hex.EncodeToString`: for each byte `v` of the source,
`hextable[v>>4]` and then `hextable[v&0x0f]`. -/
def EncodeToString : List Byte → GoString
  | [] => []
  | v :: src =>
      hextable.getD (v.val >>> 4) 0 :: hextable.getD (v.val &&& 0x0f) 0 :: EncodeToString src

/-- The function `MakeRefreshToken`.  `read n` is what `rand.Read` does with a
buffer of `n` bytes: an error, or the bytes it has filled the buffer with. -/
def MakeRefreshToken (read : Nat → Except String (List Byte)) : GoString × Option String :=
  match read 32 with
  | .error err => ([], some err)
  | .ok key =>
      let token := EncodeToString key
      (token, none)

/-- The digit of a value below sixteen in lowercase hexadecimal, as the spec
words it: `0`-`9`, then `a`-`f`. -/
def hexDigitSpec (d : Nat) : Nat := if d < 10 then 0x30 + d else 0x61 + (d - 10)

/-- The lowercase hexadecimal encoding as the spec words it: two digits a byte,
the high one first. -/
def hexEncodeSpec (key : List Byte) : GoString :=
  (key.map (fun v => [hexDigitSpec (v.val / 16), hexDigitSpec (v.val % 16)])).flatten

/-- One of the characters `0`-`9` and `a`-`f`. -/
def isLowerHex (c : Nat) : Prop := (0x30 ≤ c ∧ c ≤ 0x39) ∨ (0x61 ≤ c ∧ c ≤ 0x66)

/-! ## Package `time` -/

/-- The conversion of an integer to `int64`, the type under `time.Duration`. -/
def toInt64 (x : Int) : Int := (x + 2 ^ 63) % 2 ^ 64 - 2 ^ 63

/-- The constant `time.Nanosecond`. -/
def Nanosecond : Int := 1

/-- The constant `time.Microsecond`. -/
def Microsecond : Int := 1000 * Nanosecond

/-- The constant `time.Millisecond`. -/
def Millisecond : Int := 1000 * Microsecond

/-- The constant `time.Second`. -/
def Second : Int := 1000 * Millisecond

/-- The constant `time.Minute`. -/
def Minute : Int := 60 * Second

/-- The constant `time.Hour`. -/
def Hour : Int := 60 * Minute

/-! ## The access-token service (`jwt.go` is not among the sources) -/

/-- A `uuid.UUID`, as the number its sixteen bytes spell. -/
abbrev UUID := Nat

/-- Modelled from the spec: the content of an access token (§3),
`{issuer, subject = Identity, issued_at, expires_at}`, which `jwt.go` builds. -/
structure Claims where
  issuer : GoString
  subject : UUID
  issuedAt : Nat
  expiresAt : Nat
  deriving DecidableEq

/-- Modelled from the spec: the error kinds of access-token verification (§7),
which `jwt.go` raises. -/
inductive VerifyError where
  | Malformed
  | InvalidSignature
  | Expired
  deriving DecidableEq

/-- Modelled from the spec: what §4.3 and §6 leave open about `jwt.go`, the
symmetric signature over the payload and the wire form of a signed token. -/
structure TokenScheme where
  /-- The signature of a payload under a secret. -/
  sign : GoString → Claims → GoString
  /-- The wire form of a payload and its signature. -/
  encode : Claims → GoString → GoString
  /-- The payload and signature of a wire form, `none` when it is malformed. -/
  decode : GoString → Option (Claims × GoString)

/-- Modelled from the spec: `MakeJWT` of `jwt.go`, the `mint` of §4.3, "produces
a tamper-evident token encoding `{subject: identity, issuedAt: now, expiresAt:
now+ttl}`, signed with a process-wide server secret". -/
def MakeJWT (S : TokenScheme) (now : Nat) (userID : UUID) (tokenSecret : GoString)
    (expiresIn : Nat) : GoString × Option String :=
  let claims : Claims :=
    { issuer := lit "chirpy", subject := userID, issuedAt := now, expiresAt := now + expiresIn }
  (S.encode claims (S.sign tokenSecret claims), none)

/-- Modelled from the spec: `ValidateJWT` of `jwt.go`, the `verify` of §4.3,
"rejects structurally malformed input (`Malformed`) before attempting signature
checks", "an empty secret must always fail verification regardless of signature
content", "recomputes the signature over the claimed payload and rejects on any
mismatch (`InvalidSignature`)", "rejects if `expiresAt <= now` (`Expired`)", "on
success returns the embedded identity".  The spec names no kind for the empty
secret; `InvalidSignature` stands for it. -/
def ValidateJWT (S : TokenScheme) (now : Nat) (tokenString tokenSecret : GoString) :
    Except VerifyError UUID :=
  match S.decode tokenString with
  | none => .error .Malformed
  | some (claims, signature) =>
      if tokenSecret = [] then .error .InvalidSignature
      else if signature ≠ S.sign tokenSecret claims then .error .InvalidSignature
      else if claims.expiresAt ≤ now then .error .Expired
      else .ok claims.subject

/-- A wire form that writes the fields of the payload before the signature. -/
def plainScheme : TokenScheme where
  sign := fun secret claims => secret ++ [claims.subject, claims.issuedAt, claims.expiresAt]
  encode := fun claims signature =>
    claims.issuer.length :: claims.issuer
      ++ claims.subject :: claims.issuedAt :: claims.expiresAt :: signature
  decode := fun wire =>
    match wire with
    | [] => none
    | n :: rest =>
        match rest.drop n with
        | subject :: issuedAt :: expiresAt :: signature =>
            some ({ issuer := rest.take n, subject := subject, issuedAt := issuedAt,
                    expiresAt := expiresAt }, signature)
        | _ => none

/-! ## The handlers `handlerLogin` and `handlerRefresh` -/

/-- The row type `database.User`, with the fields the handlers read. -/
structure DBUser where
  ID : UUID
  CreatedAt : Int
  UpdatedAt : Int
  Email : GoString
  HashedPassword : GoString
  IsChirpyRed : Bool
  deriving DecidableEq

/-- The type `database.CreateRefreshTokenParams`. -/
structure CreateRefreshTokenParams where
  Token : GoString
  UserID : UUID
  ExpiresAt : Int
  deriving DecidableEq

/-- The local type `parameters` of `handlerLogin`. -/
structure parameters where
  Email : GoString
  Password : GoString
  deriving DecidableEq

/-- The type `apiConfig`, with the field the handlers read beside the store. -/
structure apiConfig where
  jwt_secret : GoString

/-- An `http.Request`, with the parts the handlers read. -/
structure Request where
  Header : Header
  Body : GoString

/-- What a handler writes: the payload given to `respondWithJSON`, or the
message given to `respondWithError`.  Neither helper is among the sources; each
is taken to write the status code and the payload it is given. -/
inductive Payload where
  | error (msg : String)
  | login (ID : UUID) (CreatedAt UpdatedAt : Int) (Email : GoString) (Chirpy_Red : Bool)
      (Token RefreshToken : GoString)
  | refresh (Token : GoString)
  deriving DecidableEq

/-- The status code and the payload of a response. -/
structure Response where
  status : Nat
  payload : Payload
  deriving DecidableEq

/-- The calls a handler makes that mint or store a credential. -/
inductive Call where
  | MakeJWT (userID : UUID) (tokenSecret : GoString) (expiresIn : Int)
  | MakeRefreshToken
  | CreateRefreshToken (arg : CreateRefreshTokenParams)
  deriving DecidableEq

/-- The collaborators of the handlers that are not among the sources: the JSON
decoder, the queries of package `database` over a store `σ` (the two lookups
read the store, `CreateRefreshToken` may change it), `bcrypt`, `auth.MakeJWT`,
the random source, the clock and `Time.AddDate`. -/
structure Env (σ : Type) where
  tab : Nat → Nat
  Decode : GoString → Except String parameters
  GetUserByEmail : σ → GoString → Except String DBUser
  GetUserFromRefreshToken : σ → GoString → Except String DBUser
  CreateRefreshToken : σ → CreateRefreshTokenParams → Option String × σ
  CompareHashAndPassword : GoString → GoString → Option String
  MakeJWT : UUID → GoString → Int → GoString × Option String
  read : Nat → Except String (List Byte)
  Now : Int
  AddDate : Int → Int → Int → Int → Int

/-- The function `CheckPasswordHash` of `hashPassword.go`. -/
def CheckPasswordHash {σ : Type} (env : Env σ) (hash password : GoString) : Option String :=
  env.CompareHashAndPassword hash password

/-- What a handler has done when it returns: the response, the store, and the
calls made in order. -/
structure Outcome (σ : Type) where
  response : Response
  store : σ
  calls : List Call

/-- The constant `http.StatusOK`. -/
def StatusOK : Nat := 200

/-- The constant `http.StatusBadRequest`. -/
def StatusBadRequest : Nat := 400

/-- The constant `http.StatusUnauthorized`. -/
def StatusUnauthorized : Nat := 401

/-- The constant `http.StatusInternalServerError`. -/
def StatusInternalServerError : Nat := 500

/-- The TTL that `handlerLogin` computes: `oneHour := time.Duration(3600)` and
then `time.Duration(oneHour*time.Second)`, a product of two `int64`. -/
def loginTTL : Int :=
  let oneHour := toInt64 3600
  toInt64 (toInt64 (oneHour * Second))

/-- The TTL that `handlerRefresh` computes: `time.Duration(1 * time.Hour)`. -/
def refreshTTL : Int := toInt64 (1 * Hour)

/-- The method `handlerLogin`. -/
def handlerLogin {σ : Type} (env : Env σ) (cfg : apiConfig) (db : σ) (req : Request) :
    Outcome σ :=
  match env.Decode req.Body with
  | .error _ => ⟨⟨StatusInternalServerError, .error "Issue decoding input"⟩, db, []⟩
  | .ok params =>
    match env.GetUserByEmail db params.Email with
    | .error _ => ⟨⟨StatusUnauthorized, .error "Incorrect email or password"⟩, db, []⟩
    | .ok usr =>
      match CheckPasswordHash env usr.HashedPassword params.Password with
      | some _ => ⟨⟨StatusUnauthorized, .error "Incorrect email or password"⟩, db, []⟩
      | none =>
        match env.MakeJWT usr.ID cfg.jwt_secret loginTTL with
        | (_, some _) =>
            ⟨⟨StatusInternalServerError, .error "Unable to create access JWT"⟩, db,
              [.MakeJWT usr.ID cfg.jwt_secret loginTTL]⟩
        | (token, none) =>
          match MakeRefreshToken env.read with
          | (_, some _) =>
              ⟨⟨StatusInternalServerError, .error "Unable to create refresh token"⟩, db,
                [.MakeJWT usr.ID cfg.jwt_secret loginTTL, .MakeRefreshToken]⟩
          | (refreshToken, none) =>
            let arg : CreateRefreshTokenParams :=
              { Token := refreshToken, UserID := usr.ID,
                ExpiresAt := env.AddDate env.Now 0 0 60 }
            match env.CreateRefreshToken db arg with
            | (some _, db1) =>
                ⟨⟨StatusInternalServerError, .error "Couldn't save refresh token"⟩, db1,
                  [.MakeJWT usr.ID cfg.jwt_secret loginTTL, .MakeRefreshToken,
                    .CreateRefreshToken arg]⟩
            | (none, db1) =>
                ⟨⟨StatusOK, .login usr.ID usr.CreatedAt usr.UpdatedAt usr.Email usr.IsChirpyRed
                    token refreshToken⟩, db1,
                  [.MakeJWT usr.ID cfg.jwt_secret loginTTL, .MakeRefreshToken,
                    .CreateRefreshToken arg]⟩

/-- The method `handlerRefresh`. -/
def handlerRefresh {σ : Type} (env : Env σ) (cfg : apiConfig) (db : σ) (req : Request) :
    Outcome σ :=
  match GetBearerToken env.tab req.Header with
  | (_, some _) => ⟨⟨StatusBadRequest, .error "Invalid Header"⟩, db, []⟩
  | (incomingToken, none) =>
    match env.GetUserFromRefreshToken db incomingToken with
    | .error _ => ⟨⟨StatusUnauthorized, .error "Relogin"⟩, db, []⟩
    | .ok usr =>
      match env.MakeJWT usr.ID cfg.jwt_secret refreshTTL with
      | (_, some _) =>
          ⟨⟨StatusUnauthorized, .error "Unable to validate token"⟩, db,
            [.MakeJWT usr.ID cfg.jwt_secret refreshTTL]⟩
      | (token, none) =>
          ⟨⟨StatusOK, .refresh token⟩, db, [.MakeJWT usr.ID cfg.jwt_secret refreshTTL]⟩

/-! ## Package `strings`: `Index`, `Count`, `Split`, `Join`, `ToLower` -/

/-- The function `strings.Index`: where `substr` first occurs in `s`, or `none`
for `-1`. -/
def Index : GoString → GoString → Option Nat
  | [], substr => if substr = [] then some 0 else none
  | c :: rest, substr =>
      if substr.isPrefixOf (c :: rest) then some 0
      else (Index rest substr).map (fun i => i + 1)

/-- The loop `for { i := Index(s, substr); if i == -1 { return n }; n++;
s = s[i+len(substr):] }` of `strings.Count`.  Every round drops a rune of `s`,
so the length of `s` bounds the rounds. -/
def countLoop (substr : GoString) : Nat → GoString → Nat
  | 0, _ => 0
  | fuel + 1, s =>
      match Index s substr with
      | none => 0
      | some i => countLoop substr fuel (s.drop (i + substr.length)) + 1

/-- The function `strings.Count`: the number of non-overlapping instances of
`substr`, and one more than the number of runes for the empty `substr`.  For a
one-byte `substr` Go counts the bytes equal to it, which is what the loop
gives. -/
def Count (s substr : GoString) : Nat :=
  if substr = [] then s.length + 1
  else countLoop substr (s.length + 1) s

/-- The loop of `strings.genSplit` with `sepSave = 0`: at most `n` cuts, and the
rest of the string as the last element. -/
def genSplitLoop (sep : GoString) : Nat → GoString → List GoString
  | 0, s => [s]
  | n + 1, s =>
      match Index s sep with
      | none => [s]
      | some m => s.take m :: genSplitLoop sep n (s.drop (m + sep.length))

/-- The function `strings.Split`, that is `genSplit(s, sep, 0, -1)`: the runes
one by one for the empty separator (`explode`), and otherwise
`n = Count(s, sep) + 1` elements. -/
def Split (s sep : GoString) : List GoString :=
  if sep = [] then s.map (fun r => [r])
  else genSplitLoop sep (Count s sep) s

/-- The elements after the first of `strings.Join`, each written after the
separator. -/
def joinRest (sep : GoString) : List GoString → GoString
  | [] => []
  | s :: more => sep ++ s ++ joinRest sep more

/-- The function `strings.Join`. -/
def Join (elems : List GoString) (sep : GoString) : GoString :=
  match elems with
  | [] => []
  | [e] => e
  | e :: rest => e ++ joinRest sep rest

/-- The function `unicode.ToLower`.  `lowerTab` is `unicode.To(LowerCase, r)`,
the case tables above ASCII, which are not written out here. -/
def unicodeToLower (lowerTab : Nat → Nat) (r : Nat) : Nat :=
  if r ≤ MaxASCII then
    if 0x41 ≤ r ∧ r ≤ 0x5A then r + (0x61 - 0x41) else r
  else lowerTab r

/-- The function `strings.ToLower`: its ASCII path and `Map(unicode.ToLower, s)`
both map every rune through `unicode.ToLower`. -/
def ToLower (lowerTab : Nat → Nat) (s : GoString) : GoString :=
  s.map (unicodeToLower lowerTab)

/-! ## `chirps.go` -/

/-- The function `cleanChirpBody`.  `badWords` holds the keys of the map; the
loop `for i, word := range text` rewrites the element it has just read and no
other, so it is a map over the elements. -/
def cleanChirpBody (lowerTab : Nat → Nat) (msg : GoString) (badWords : List GoString) :
    GoString :=
  let text := Split msg (lit " ")
  let text := text.map (fun word => if ToLower lowerTab word ∈ badWords then lit "****" else word)
  let cleaned := Join text (lit " ")
  cleaned

/-- The map `badWords` that `handlerValidateChirp` builds. -/
def handlerBadWords : List GoString := [lit "kerfuffle", lit "sharbert", lit "fornax"]

/-- The constant `maxChirpLength` of `handlerValidateChirp`. -/
def maxChirpLength : Nat := 140

/-- The constant `http.StatusCreated`. -/
def StatusCreated : Nat := 201

/-- The type `Parameters` of `chirps.go`. -/
structure Parameters where
  Body : GoString
  deriving DecidableEq

/-- The type `database.CreateChirpParams`. -/
structure CreateChirpParams where
  Body : GoString
  UserID : UUID
  deriving DecidableEq

/-- The row type `database.Chirp`. -/
structure DBChirp where
  ID : UUID
  CreatedAt : Int
  UpdatedAt : Int
  Body : GoString
  UserID : UUID
  deriving DecidableEq

/-- What `handlerValidateChirp` writes: the message given to `respondWithError`,
or the `Chirp` given to `respondWithJSON`. -/
inductive ChirpPayload where
  | error (msg : String)
  | chirp (ID : UUID) (CreatedAt UpdatedAt : Int) (Body : GoString) (User_ID : UUID)
  deriving DecidableEq

/-- The collaborators of `handlerValidateChirp` that are not among the sources:
the JSON decoder behind `decodeParams`, `auth.ValidateJWT`, the query
`CreateChirp` of package `database` over a store `σ`, the case tables of package
`unicode`, and the built-in `len`, the number of bytes of a string, which its
runes fix for valid UTF-8 only. -/
structure ChirpEnv (σ : Type) where
  tab : Nat → Nat
  lowerTab : Nat → Nat
  Decode : GoString → Except String Parameters
  ValidateJWT : GoString → GoString → UUID × Option String
  CreateChirp : σ → CreateChirpParams → Except String DBChirp × σ
  len : GoString → Nat

/-- The function `decodeParams`: the decoded parameters, or `Parameters{}` and
the error. -/
def decodeParams {σ : Type} (env : ChirpEnv σ) (req : Request) : Parameters × Option String :=
  match env.Decode req.Body with
  | .error err => (⟨[]⟩, some err)
  | .ok params => (params, none)

/-- What `handlerValidateChirp` has done when it returns: the responses written
in order (status code and payload), the store, and the arguments of the calls
to `CreateChirp`. -/
structure ChirpOutcome (σ : Type) where
  writes : List (Nat × ChirpPayload)
  store : σ
  created : List CreateChirpParams

/-- The method `handlerValidateChirp` from the point where `params` is set.
`early` holds what has been written before. -/
def validateChirpFrom {σ : Type} (env : ChirpEnv σ) (cfg : apiConfig) (db : σ) (req : Request)
    (params : Parameters) (early : List (Nat × ChirpPayload)) : ChirpOutcome σ :=
  match GetBearerToken env.tab req.Header with
  | (_, some _) => ⟨early ++ [(StatusBadRequest, .error "Invalid Header")], db, []⟩
  | (token, none) =>
    match env.ValidateJWT token cfg.jwt_secret with
    | (_, some _) => ⟨early ++ [(StatusUnauthorized, .error "Please relogin")], db, []⟩
    | (userID, none) =>
      if env.len params.Body > maxChirpLength then
        ⟨early ++ [(StatusBadRequest, .error "Chirp is too long")], db, []⟩
      else
        let badWords := handlerBadWords
        let arg : CreateChirpParams :=
          { Body := cleanChirpBody env.lowerTab params.Body badWords, UserID := userID }
        match env.CreateChirp db arg with
        | (.error _, db1) =>
            ⟨early ++ [(StatusInternalServerError, .error "Unable to create Chirp")], db1, [arg]⟩
        | (.ok chirp, db1) =>
            ⟨early ++ [(StatusCreated, .chirp chirp.ID chirp.CreatedAt chirp.UpdatedAt
                (cleanChirpBody env.lowerTab chirp.Body badWords) chirp.UserID)], db1, [arg]⟩

/-- The method `handlerValidateChirp`.  After a decoding error it writes the
error and, having no `return` there, goes on with the empty `Parameters{}`. -/
def handlerValidateChirp {σ : Type} (env : ChirpEnv σ) (cfg : apiConfig) (db : σ)
    (req : Request) : ChirpOutcome σ :=
  match decodeParams env req with
  | (params, some _) =>
      validateChirpFrom env cfg db req params
        [(StatusInternalServerError, .error "Decoding Error")]
  | (params, none) => validateChirpFrom env cfg db req params []

/-! ## Collaborators used in the witness of the TTL claim -/

/-- A `MakeJWT` that tells the TTL it is given: it signs only for a TTL of
3,600,000,000,000 and returns an error for every other. -/
def hourOnlyJWT (userID : UUID) (tokenSecret : GoString) (expiresIn : Int) :
    GoString × Option String :=
  if expiresIn = 3600000000000 then (userID :: tokenSecret, none)
  else ([], some "unexpected TTL")

/-- Collaborators over a store that counts its refresh tokens: every email
belongs to user 7, every password matches, refresh token `ab` belongs to user 7,
and `MakeJWT` is `hourOnlyJWT`. -/
def hourEnv : Env Nat where
  tab := id
  Decode := fun body => .ok { Email := body, Password := body }
  GetUserByEmail := fun _ email =>
    .ok { ID := 7, CreatedAt := 1, UpdatedAt := 2, Email := email, HashedPassword := [],
          IsChirpyRed := false }
  GetUserFromRefreshToken := fun _ token =>
    if token = lit "ab" then
      .ok { ID := 7, CreatedAt := 1, UpdatedAt := 2, Email := lit "a@b", HashedPassword := [],
            IsChirpyRed := false }
    else .error "not found"
  CreateRefreshToken := fun db _ => (none, db + 1)
  CompareHashAndPassword := fun _ _ => none
  MakeJWT := hourOnlyJWT
  read := fun n => .ok (List.replicate n 0)
  Now := 0
  AddDate := fun t _ _ days => t + days

/-! # Theorems -/

theorem foldWalk_stop (tab : Nat → Nat) (sr tr n r : Nat) (h : ¬ (r ≠ sr ∧ r < tr)) :
    foldWalk tab sr tr n r = r := by
  cases n with
  | zero => rfl
  | succ n => simp only [foldWalk, if_neg h]

theorem foldWalk_step (tab : Nat → Nat) (sr tr n r : Nat) (h : r ≠ sr ∧ r < tr) :
    foldWalk tab sr tr (n + 1) r = foldWalk tab sr tr n (SimpleFold tab r) := by
  simp only [foldWalk, if_pos h]

theorem maxRune_succ : MaxRune + 1 = 1114109 + 1 + 1 + 1 := by decide

/-- A letter other than k and s: upper case. -/
theorem runeEqualFold_upper (tab : Nat → Nat) (c t : Nat) (h1 : 0x41 ≤ t) (h2 : t ≤ 0x5A)
    (hk : t ≠ 0x4B) (hs : t ≠ 0x53) :
    runeEqualFold tab c t = true ↔ c = t ∨ c = t + 0x20 := by
  unfold runeEqualFold
  by_cases hct : t = c
  · simp [hct]
  · simp only [if_neg hct]
    by_cases hlt : t < c
    · simp only [if_pos hlt]
      by_cases hc : c < RuneSelf
      · simp only [if_pos hc, decide_eq_true_eq]
        omega
      · simp only [if_neg hc]
        have hc2 : 128 ≤ c := by simpa [RuneSelf] using hc
        have e1 : SimpleFold tab t = t + 0x20 := by
          unfold SimpleFold asciiFold MaxRune MaxASCII; split_ifs <;> omega
        have e2 : SimpleFold tab (t + 0x20) = t := by
          unfold SimpleFold asciiFold MaxRune MaxASCII; split_ifs <;> omega
        rw [e1, maxRune_succ, foldWalk_step _ _ _ _ _ (by omega), e2,
          foldWalk_stop _ _ _ _ _ (by omega)]
        simp only [beq_iff_eq]; omega
    · simp only [if_neg hlt]
      have hc : t < RuneSelf := by unfold RuneSelf; omega
      simp only [if_pos hc, decide_eq_true_eq]
      omega


/-- A letter other than k and s: lower case. -/
theorem runeEqualFold_lower (tab : Nat → Nat) (c t : Nat) (h1 : 0x61 ≤ t) (h2 : t ≤ 0x7A)
    (hk : t ≠ 0x6B) (hs : t ≠ 0x73) :
    runeEqualFold tab c t = true ↔ c = t ∨ c + 0x20 = t := by
  unfold runeEqualFold
  by_cases hct : t = c
  · simp [hct]
  · simp only [if_neg hct]
    by_cases hlt : t < c
    · simp only [if_pos hlt]
      by_cases hc : c < RuneSelf
      · simp only [if_pos hc, decide_eq_true_eq]
        omega
      · simp only [if_neg hc]
        have hc2 : 128 ≤ c := by simpa [RuneSelf] using hc
        have e1 : SimpleFold tab t = t - 0x20 := by
          unfold SimpleFold asciiFold MaxRune MaxASCII; split_ifs <;> omega
        have e2 : SimpleFold tab (t - 0x20) = t := by
          unfold SimpleFold asciiFold MaxRune MaxASCII; split_ifs <;> omega
        rw [e1, maxRune_succ, foldWalk_step _ _ _ _ _ (by omega), e2,
          foldWalk_stop _ _ _ _ _ (by omega)]
        simp only [beq_iff_eq]; omega
    · simp only [if_neg hlt]
      have hc : t < RuneSelf := by unfold RuneSelf; omega
      simp only [if_pos hc, decide_eq_true_eq]
      omega

/-- The letter K: its orbit holds the Kelvin sign U+212A. -/
theorem runeEqualFold_K (tab : Nat → Nat) (c : Nat) :
    runeEqualFold tab c 0x4B = true ↔ c = 0x4B ∨ c = 0x6B ∨ c = 0x212A := by
  unfold runeEqualFold
  by_cases hct : 0x4B = c
  · simp [hct]
  · simp only [if_neg hct]
    by_cases hlt : 0x4B < c
    · simp only [if_pos hlt]
      by_cases hc : c < RuneSelf
      · simp only [if_pos hc, decide_eq_true_eq]
        have hc2 : c < 128 := by simpa [RuneSelf] using hc
        omega
      · simp only [if_neg hc]
        have hc2 : 128 ≤ c := by simpa [RuneSelf] using hc
        have e1 : SimpleFold tab 0x4B = 0x6B := by
          unfold SimpleFold asciiFold MaxRune MaxASCII; split_ifs <;> omega
        have e2 : SimpleFold tab 0x6B = 0x212A := by
          unfold SimpleFold asciiFold MaxRune MaxASCII; split_ifs <;> omega
        have e3 : SimpleFold tab 0x212A = 0x4B := by
          unfold SimpleFold asciiFold MaxRune MaxASCII; split_ifs <;> omega
        rw [e1, maxRune_succ, foldWalk_step _ _ _ _ _ (by omega), e2]
        by_cases hk : 0x212A < c
        · rw [foldWalk_step _ _ _ _ _ (by omega), e3, foldWalk_stop _ _ _ _ _ (by omega)]
          simp only [beq_iff_eq]; omega
        · rw [foldWalk_stop _ _ _ _ _ (by omega)]
          simp only [beq_iff_eq]; omega
    · simp only [if_neg hlt]
      have hc : (0x4B : Nat) < RuneSelf := by decide
      simp only [if_pos hc, decide_eq_true_eq]
      omega


/-! ### `strings.EqualFold` against a literal -/

theorem EqualFold_length (tab : Nat → Nat) :
    ∀ s t : GoString, EqualFold tab s t = true → s.length = t.length
  | [], [], _ => rfl
  | [], _ :: _, h => by simp [EqualFold] at h
  | _ :: _, [], h => by simp [EqualFold] at h
  | sr :: s, tr :: t, h => by
      simp only [EqualFold] at h
      split at h
      · simp [EqualFold_length tab s t h]
      · simp at h

theorem EqualFold_mem (tab : Nat → Nat) :
    ∀ s t : GoString, EqualFold tab s t = true →
      ∀ c ∈ s, ∃ b ∈ t, runeEqualFold tab c b = true
  | [], _, _ => by simp
  | _ :: _, [], h => by simp [EqualFold] at h
  | sr :: s, tr :: t, h => by
      simp only [EqualFold] at h
      split at h
      · rename_i hr
        intro c hc
        rcases List.mem_cons.mp hc with rfl | hc
        · exact ⟨tr, List.mem_cons_self _ _, hr⟩
        · obtain ⟨b, hb, hcb⟩ := EqualFold_mem tab s t h c hc
          exact ⟨b, List.mem_cons_of_mem _ hb, hcb⟩
      · simp at h

theorem EqualFold_head (tab : Nat → Nat) (sr tr : Nat) (s t : GoString)
    (h : EqualFold tab (sr :: s) (tr :: t) = true) : runeEqualFold tab sr tr = true := by
  simp only [EqualFold] at h
  split at h
  · assumption
  · simp at h

theorem lit_Bearer : lit "Bearer" = [0x42, 0x65, 0x61, 0x72, 0x65, 0x72] := by decide

theorem lit_ApiKey : lit "ApiKey" = [0x41, 0x70, 0x69, 0x4B, 0x65, 0x79] := by decide

/-- No rune that folds to a letter of `Bearer` is white space. -/
theorem Bearer_rune_not_space (tab : Nat → Nat) (c b : Nat) (hb : b ∈ lit "Bearer")
    (h : runeEqualFold tab c b = true) : IsSpace c = false := by
  rw [lit_Bearer] at hb
  simp only [List.mem_cons, List.mem_singleton, List.not_mem_nil, or_false] at hb
  rcases hb with rfl | rfl | rfl | rfl | rfl | rfl
  · rcases (runeEqualFold_upper tab c _ (by decide) (by decide) (by decide) (by decide)).mp h
      with rfl | rfl <;> decide
  all_goals
    rcases (runeEqualFold_lower tab c _ (by decide) (by decide) (by decide) (by decide)).mp h
      with rfl | h2
    · decide
    · have : c = _ := Nat.eq_sub_of_add_eq h2
      subst this; decide

/-- No rune that folds to a letter of `ApiKey` is white space. -/
theorem ApiKey_rune_not_space (tab : Nat → Nat) (c b : Nat) (hb : b ∈ lit "ApiKey")
    (h : runeEqualFold tab c b = true) : IsSpace c = false := by
  rw [lit_ApiKey] at hb
  simp only [List.mem_cons, List.mem_singleton, List.not_mem_nil, or_false] at hb
  rcases hb with rfl | rfl | rfl | rfl | rfl | rfl
  · rcases (runeEqualFold_upper tab c _ (by decide) (by decide) (by decide) (by decide)).mp h
      with rfl | rfl <;> decide
  iterate 2
    rcases (runeEqualFold_lower tab c _ (by decide) (by decide) (by decide) (by decide)).mp h
      with rfl | h2
    · decide
    · have : c = _ := Nat.eq_sub_of_add_eq h2
      subst this; decide
  · rcases (runeEqualFold_K tab c).mp h with rfl | rfl | rfl <;> decide
  iterate 2
    rcases (runeEqualFold_lower tab c _ (by decide) (by decide) (by decide) (by decide)).mp h
      with rfl | h2
    · decide
    · have : c = _ := Nat.eq_sub_of_add_eq h2
      subst this; decide

/-- A word that equals `Bearer` under case folding is not empty and holds no
white space. -/
theorem Bearer_word (tab : Nat → Nat) (s : GoString) (h : EqualFold tab s (lit "Bearer") = true) :
    s ≠ [] ∧ ∀ c ∈ s, IsSpace c = false := by
  refine ⟨?_, ?_⟩
  · rintro rfl
    have := EqualFold_length tab _ _ h
    rw [lit_Bearer] at this
    simp at this
  · intro c hc
    obtain ⟨b, hb, hcb⟩ := EqualFold_mem tab _ _ h c hc
    exact Bearer_rune_not_space tab c b hb hcb

/-- A word that equals `ApiKey` under case folding is not empty and holds no
white space. -/
theorem ApiKey_word (tab : Nat → Nat) (s : GoString) (h : EqualFold tab s (lit "ApiKey") = true) :
    s ≠ [] ∧ ∀ c ∈ s, IsSpace c = false := by
  refine ⟨?_, ?_⟩
  · rintro rfl
    have := EqualFold_length tab _ _ h
    rw [lit_ApiKey] at this
    simp at this
  · intro c hc
    obtain ⟨b, hb, hcb⟩ := EqualFold_mem tab _ _ h c hc
    exact ApiKey_rune_not_space tab c b hb hcb

/-! ### `strings.FieldsFunc` on a value built from runs -/

theorem FieldsFunc_cons_none (f : Nat → Bool) (r : Nat) (rs : GoString) :
    FieldsFunc f (r :: rs) none
      = if f r then FieldsFunc f rs none else FieldsFunc f rs (some [r]) := by
  rw [FieldsFunc]

theorem FieldsFunc_cons_some (f : Nat → Bool) (r : Nat) (rs w : GoString) :
    FieldsFunc f (r :: rs) (some w)
      = if f r then w :: FieldsFunc f rs none else FieldsFunc f rs (some (w ++ [r])) := by
  rw [FieldsFunc]

theorem FieldsFunc_skip (f : Nat → Bool) (ws s : GoString) (h : ∀ c ∈ ws, f c = true) :
    FieldsFunc f (ws ++ s) none = FieldsFunc f s none := by
  induction ws with
  | nil => rfl
  | cons c ws ih =>
    have hc : f c = true := h c (List.mem_cons_self _ _)
    rw [List.cons_append, FieldsFunc_cons_none, if_pos hc]
    exact ih (fun x hx => h x (List.mem_cons_of_mem _ hx))

theorem FieldsFunc_extend (f : Nat → Bool) (w s : GoString) (h : ∀ c ∈ w, f c = false) :
    ∀ acc : GoString, FieldsFunc f (w ++ s) (some acc) = FieldsFunc f s (some (acc ++ w)) := by
  induction w with
  | nil => intro acc; simp
  | cons c w ih =>
    intro acc
    have hc : f c = false := h c (List.mem_cons_self _ _)
    rw [List.cons_append, FieldsFunc_cons_some, hc, if_neg (by simp),
      ih (fun x hx => h x (List.mem_cons_of_mem _ hx))]
    simp

theorem FieldsFunc_open (f : Nat → Bool) (w s : GoString) (hne : w ≠ [])
    (h : ∀ c ∈ w, f c = false) :
    FieldsFunc f (w ++ s) none = FieldsFunc f s (some w) := by
  cases w with
  | nil => exact absurd rfl hne
  | cons c w =>
    have hc : f c = false := h c (List.mem_cons_self _ _)
    rw [List.cons_append, FieldsFunc_cons_none, hc, if_neg (by simp),
      FieldsFunc_extend f w s (fun x hx => h x (List.mem_cons_of_mem _ hx))]
    simp

theorem FieldsFunc_close (f : Nat → Bool) (acc tail : GoString) (h : endsField f tail) :
    FieldsFunc f tail (some acc) = acc :: FieldsFunc f tail none := by
  rcases h with rfl | ⟨c, rest, rfl, hc⟩
  · simp [FieldsFunc]
  · simp [FieldsFunc, hc]

/-- A white-space-free, non-empty word followed by the end of the value or by
white space is the first field. -/
theorem FieldsFunc_word (f : Nat → Bool) (w tail : GoString) (hne : w ≠ [])
    (h : ∀ c ∈ w, f c = false) (ht : endsField f tail) :
    FieldsFunc f (w ++ tail) none = w :: FieldsFunc f tail none := by
  rw [FieldsFunc_open f w tail hne h, FieldsFunc_close f w tail ht]

/-- Every field is non-empty and free of white space. -/
theorem FieldsFunc_fields (f : Nat → Bool) :
    ∀ (s : GoString) (st : Option GoString),
      (∀ w, st = some w → w ≠ [] ∧ ∀ c ∈ w, f c = false) →
      ∀ x ∈ FieldsFunc f s st, x ≠ [] ∧ ∀ c ∈ x, f c = false
  | [], none, _ => by simp [FieldsFunc]
  | [], some w, h => by
      intro x hx
      simp only [FieldsFunc, List.mem_singleton] at hx
      subst hx
      exact h _ rfl
  | r :: rs, none, _ => by
      intro x hx
      simp only [FieldsFunc] at hx
      split at hx
      · exact FieldsFunc_fields f rs none (by simp) x hx
      · rename_i hr
        refine FieldsFunc_fields f rs (some [r]) ?_ x hx
        intro w hw
        cases hw
        simpa using hr
  | r :: rs, some w, h => by
      intro x hx
      simp only [FieldsFunc] at hx
      split at hx
      · rcases List.mem_cons.mp hx with rfl | hx
        · exact h _ rfl
        · exact FieldsFunc_fields f rs none (by simp) x hx
      · rename_i hr
        refine FieldsFunc_fields f rs (some (w ++ [r])) ?_ x hx
        intro w2 hw
        cases hw
        refine ⟨by simp, ?_⟩
        intro c hc
        rcases List.mem_append.mp hc with hc | hc
        · exact (h w rfl).2 c hc
        · simp only [List.mem_singleton] at hc
          subst hc
          simpa using hr

theorem Fields_ne_nil (s x : GoString) (hx : x ∈ Fields s) : x ≠ [] :=
  (FieldsFunc_fields IsSpace s none (by simp) x hx).1


theorem space_lit : spaceRun (lit " ") ∧ lit " " ≠ [] := by
  refine ⟨?_, by decide⟩
  intro c hc
  have : c = 0x20 := by simpa [lit] using hc
  subst this; decide

theorem endsField_space (ws tail : GoString) (hne : ws ≠ []) (h : spaceRun ws) :
    endsField IsSpace (ws ++ tail) := by
  cases ws with
  | nil => exact absurd rfl hne
  | cons c ws => exact Or.inr ⟨c, ws ++ tail, rfl, h c (List.mem_cons_self _ _)⟩

theorem endsField_trail (trail : GoString) (h : spaceRun trail) : endsField IsSpace trail := by
  cases trail with
  | nil => exact Or.inl rfl
  | cons c ws => exact Or.inr ⟨c, ws, rfl, h c (List.mem_cons_self _ _)⟩

theorem endsField_joinExtra (extra : List (GoString × GoString)) (trail : GoString)
    (hextra : ∀ p ∈ extra, (p.1 ≠ [] ∧ spaceRun p.1) ∧ word p.2) (htrail : spaceRun trail) :
    endsField IsSpace (joinExtra extra ++ trail) := by
  cases extra with
  | nil => simpa [joinExtra] using endsField_trail trail htrail
  | cons p more =>
    obtain ⟨sep, fld⟩ := p
    have hp := (hextra (sep, fld) (List.mem_cons_self _ _)).1
    have := endsField_space sep (fld ++ joinExtra more ++ trail) hp.1 hp.2
    simpa [joinExtra, List.append_assoc] using this

/-- The fields of a value that starts with a scheme word and a token. -/
theorem Fields_scheme_token (lead scheme sep token tail : GoString) (hlead : spaceRun lead)
    (hscheme : word scheme) (hsep : sep ≠ [] ∧ spaceRun sep) (htoken : word token)
    (htail : endsField IsSpace tail) :
    Fields (lead ++ scheme ++ sep ++ token ++ tail) = scheme :: token :: Fields tail := by
  unfold Fields
  rw [List.append_assoc, List.append_assoc, List.append_assoc, FieldsFunc_skip _ _ _ hlead,
    FieldsFunc_word IsSpace scheme _ hscheme.1 hscheme.2 (endsField_space sep _ hsep.1 hsep.2),
    FieldsFunc_skip _ _ _ hsep.2, FieldsFunc_word IsSpace token _ htoken.1 htoken.2 htail]

/-- The fields of a scheme word, white space and a remainder. -/
theorem Fields_scheme_rest (scheme sep rest : GoString) (hscheme : word scheme)
    (hsep : sep ≠ [] ∧ spaceRun sep) :
    Fields (scheme ++ sep ++ rest) = scheme :: Fields rest := by
  unfold Fields
  rw [List.append_assoc,
    FieldsFunc_word IsSpace scheme _ hscheme.1 hscheme.2 (endsField_space sep _ hsep.1 hsep.2),
    FieldsFunc_skip _ _ _ hsep.2]

/-- What `GetBearerToken` returns in terms of the fields of the value. -/
theorem GetBearerToken_fields (tab : Nat → Nat) (headers : Header) (f0 f1 : GoString)
    (more : List GoString) (hf : Fields (headers.Get "Authorization") = f0 :: f1 :: more) :
    GetBearerToken tab headers =
      if EqualFold tab f0 (lit "Bearer") then (f1, none)
      else ([], some "invalid bearer request") := by
  have hne : headers.Get "Authorization" ≠ [] := by
    intro h0
    rw [h0] at hf
    simp [Fields, FieldsFunc] at hf
  have hf1 : f1 ≠ [] := Fields_ne_nil _ f1 (by rw [hf]; simp)
  unfold GetBearerToken
  simp only [hne, if_false, hf]
  cases hE : EqualFold tab f0 (lit "Bearer") <;> simp [hf1, hE]

/-- What `GetAPIKey` returns in terms of the fields of the value. -/
theorem GetAPIKey_fields (tab : Nat → Nat) (headers : Header) (f0 f1 : GoString)
    (more : List GoString) (hf : Fields (headers.Get "Authorization") = f0 :: f1 :: more) :
    GetAPIKey tab headers =
      if EqualFold tab f0 (lit "ApiKey") then (f1, none)
      else ([], some "invalid apikey request") := by
  have hne : headers.Get "Authorization" ≠ [] := by
    intro h0
    rw [h0] at hf
    simp [Fields, FieldsFunc] at hf
  unfold GetAPIKey
  simp only [hne, if_false, hf]
  cases hE : EqualFold tab f0 (lit "ApiKey") <;> simp [hE]

/-- With fewer than two fields both extractors fail. -/
theorem GetBearerToken_short (tab : Nat → Nat) (headers : Header)
    (hf : (Fields (headers.Get "Authorization")).length < 2) :
    (GetBearerToken tab headers).1 = [] ∧
      ((GetBearerToken tab headers).2 = some "no auth header" ∨
        (GetBearerToken tab headers).2 = some "invalid bearer request") := by
  unfold GetBearerToken
  by_cases hne : headers.Get "Authorization" = []
  · simp [hne]
  · simp [hne, hf]

theorem GetAPIKey_short (tab : Nat → Nat) (headers : Header)
    (hf : (Fields (headers.Get "Authorization")).length < 2) :
    (GetAPIKey tab headers).1 = [] ∧ (GetAPIKey tab headers).2 ≠ none := by
  unfold GetAPIKey
  by_cases hne : headers.Get "Authorization" = []
  · simp [hne]
  · simp [hne, hf]


theorem Get_authHeaders (v : GoString) : (authHeaders v).Get "Authorization" = v := by
  simp [Header.Get, authHeaders]

theorem GetBearerToken_empty (tab : Nat → Nat) (headers : Header)
    (h : headers.Get "Authorization" = []) :
    GetBearerToken tab headers = ([], some "no auth header") := by
  simp [GetBearerToken, h]

theorem GetBearerToken_few (tab : Nat → Nat) (headers : Header)
    (h : headers.Get "Authorization" ≠ [])
    (hf : (Fields (headers.Get "Authorization")).length < 2) :
    GetBearerToken tab headers = ([], some "invalid bearer request") := by
  simp [GetBearerToken, h, hf]

theorem list_short_or_two (l : List GoString) :
    l.length < 2 ∨ ∃ f0 f1 more, l = f0 :: f1 :: more := by
  match l with
  | [] => exact Or.inl (by simp)
  | [_] => exact Or.inl (by simp)
  | f0 :: f1 :: more => exact Or.inr ⟨f0, f1, more, rfl⟩

theorem EqualFold_Bearer_self (tab : Nat → Nat) :
    EqualFold tab (lit "Bearer") (lit "Bearer") = true := by
  rw [lit_Bearer]; rfl

theorem EqualFold_bearer_lower (tab : Nat → Nat) :
    EqualFold tab (lit "bearer") (lit "Bearer") = true := by
  rw [lit_Bearer, show lit "bearer" = [0x62, 0x65, 0x61, 0x72, 0x65, 0x72] by decide]; rfl

theorem EqualFold_Basic (tab : Nat → Nat) :
    EqualFold tab (lit "Basic") (lit "Bearer") = false := by
  rw [lit_Bearer, show lit "Basic" = [0x42, 0x61, 0x73, 0x69, 0x63] by decide]; rfl

/-- The extraction from a value built of a scheme word, white space, a token
and a tail that the token does not run into. -/
theorem GetBearerToken_built (tab : Nat → Nat) (headers : Header)
    (lead scheme sep token tail : GoString) (hlead : spaceRun lead)
    (hscheme : EqualFold tab scheme (lit "Bearer") = true) (hsep : sep ≠ [] ∧ spaceRun sep)
    (htoken : word token) (htail : endsField IsSpace tail)
    (hAuth : headers.Get "Authorization" = lead ++ scheme ++ sep ++ token ++ tail) :
    GetBearerToken tab headers = (token, none) := by
  have hf := Fields_scheme_token lead scheme sep token tail hlead
    (Bearer_word tab scheme hscheme) hsep htoken htail
  rw [← hAuth] at hf
  rw [GetBearerToken_fields tab headers scheme token _ hf, if_pos hscheme]


/-! ### `hex.EncodeToString` -/

theorem hextable_digit : ∀ d, d < 16 → hextable.getD d 0 = hexDigitSpec d := by decide

theorem hexDigitSpec_lower (d : Nat) (h : d < 16) : isLowerHex (hexDigitSpec d) := by
  unfold isLowerHex hexDigitSpec
  split_ifs <;> omega

theorem hexDigitSpec_inj (a b : Nat) (ha : a < 16) (hb : b < 16)
    (h : hexDigitSpec a = hexDigitSpec b) : a = b := by
  unfold hexDigitSpec at h
  split_ifs at h <;> omega

theorem byte_high (v : Byte) : v.val >>> 4 = v.val / 16 := by
  rw [Nat.shiftRight_eq_div_pow]

theorem byte_low (v : Byte) : v.val &&& 0x0f = v.val % 16 :=
  Nat.and_pow_two_sub_one_eq_mod v.val 4

theorem EncodeToString_eq_spec : ∀ key : List Byte, EncodeToString key = hexEncodeSpec key
  | [] => rfl
  | v :: src => by
      have h1 : v.val / 16 < 16 := by have := v.isLt; omega
      have h2 : v.val % 16 < 16 := Nat.mod_lt _ (by decide)
      simp only [EncodeToString, byte_high, byte_low, hextable_digit _ h1, hextable_digit _ h2,
        EncodeToString_eq_spec src]
      simp [hexEncodeSpec]

theorem hexEncodeSpec_cons (v : Byte) (src : List Byte) :
    hexEncodeSpec (v :: src)
      = hexDigitSpec (v.val / 16) :: hexDigitSpec (v.val % 16) :: hexEncodeSpec src := by
  simp [hexEncodeSpec]

theorem hexEncodeSpec_length : ∀ key : List Byte, (hexEncodeSpec key).length = 2 * key.length
  | [] => rfl
  | v :: src => by
      rw [hexEncodeSpec_cons, List.length_cons, List.length_cons, hexEncodeSpec_length src,
        List.length_cons]
      omega

theorem hexEncodeSpec_lower : ∀ key : List Byte, ∀ c ∈ hexEncodeSpec key, isLowerHex c
  | [], c, hc => by simp [hexEncodeSpec] at hc
  | v :: src, c, hc => by
      rw [hexEncodeSpec_cons] at hc
      have h1 : v.val / 16 < 16 := by have := v.isLt; omega
      have h2 : v.val % 16 < 16 := Nat.mod_lt _ (by decide)
      rcases List.mem_cons.mp hc with rfl | hc
      · exact hexDigitSpec_lower _ h1
      rcases List.mem_cons.mp hc with rfl | hc
      · exact hexDigitSpec_lower _ h2
      · exact hexEncodeSpec_lower src c hc

theorem hexEncodeSpec_inj : ∀ a b : List Byte, a.length = b.length →
    hexEncodeSpec a = hexEncodeSpec b → a = b
  | [], [], _, _ => rfl
  | [], _ :: _, hl, _ => by simp at hl
  | _ :: _, [], hl, _ => by simp at hl
  | v :: a, w :: b, hl, h => by
      rw [hexEncodeSpec_cons, hexEncodeSpec_cons] at h
      simp only [List.cons.injEq] at h
      obtain ⟨e1, e2, e3⟩ := h
      have hv := v.isLt
      have hw := w.isLt
      have d1 := hexDigitSpec_inj _ _ (by omega) (by omega) e1
      have d2 := hexDigitSpec_inj _ _ (Nat.mod_lt _ (by decide)) (Nat.mod_lt _ (by decide)) e2
      have hvw : v = w := Fin.ext (by omega)
      rw [hvw, hexEncodeSpec_inj a b (by simpa using hl) e3]

/-! ### The wire form used in the witnesses -/

theorem plainScheme_decode_encode (claims : Claims) (signature : GoString) :
    plainScheme.decode (plainScheme.encode claims signature) = some (claims, signature) := by
  simp [plainScheme]

/-! ### The cases of `TestBearerToken` -/

theorem TestBearerToken_cases :
    GetBearerToken id (authHeaders (lit "Bearer myvalidtoken123"))
      = (lit "myvalidtoken123", none) ∧
    (GetBearerToken id (authHeaders (lit ""))).2 ≠ none ∧
    (GetBearerToken id (authHeaders (lit "Bearer "))).2 ≠ none ∧
    (GetBearerToken id (authHeaders (lit "Basic myvalidtoken123"))).2 ≠ none ∧
    GetBearerToken id (authHeaders (lit "bearer myvalidtoken123"))
      = (lit "myvalidtoken123", none) ∧
    GetBearerToken id (authHeaders (lit "Bearer myvalidtoken123 extraField"))
      = (lit "myvalidtoken123", none) ∧
    GetBearerToken id (authHeaders (lit "   Bearer     myvalidtoken123   "))
      = (lit "myvalidtoken123", none) := by decide

/-- The Kelvin sign U+212A is accepted for the `K` of `ApiKey`. -/
theorem GetAPIKey_kelvin :
    GetAPIKey id (authHeaders (0x41 :: 0x70 :: 0x69 :: 0x212A :: lit "ey abc d"))
      = (lit "abc", none) := by decide

/-! ## The claims -/

/-- C1: for a value made of leading white space, a scheme word that equals
`Bearer` under case folding, a non-empty run of white space, a non-empty token
without white space, any further white-space-separated fields and trailing white
space, `GetBearerToken` returns the token unchanged and no error; so it does on
`"Bearer " + token`, `"bearer " + token` and `"Bearer   " + token + "   extra"`. -/
theorem GetBearerToken_roundtrip (tab : Nat → Nat) (headers : Header)
    (lead scheme sep token trail : GoString) (extra : List (GoString × GoString))
    (hlead : spaceRun lead) (hscheme : EqualFold tab scheme (lit "Bearer") = true)
    (hsep : sep ≠ [] ∧ spaceRun sep) (htoken : word token)
    (hextra : ∀ p ∈ extra, (p.1 ≠ [] ∧ spaceRun p.1) ∧ word p.2) (htrail : spaceRun trail)
    (hAuth : headers.Get "Authorization"
      = lead ++ scheme ++ sep ++ token ++ joinExtra extra ++ trail) :
    GetBearerToken tab headers = (token, none) ∧
    GetBearerToken tab (authHeaders (lit "Bearer " ++ token)) = (token, none) ∧
    GetBearerToken tab (authHeaders (lit "bearer " ++ token)) = (token, none) ∧
    GetBearerToken tab (authHeaders (lit "Bearer   " ++ token ++ lit "   extra"))
      = (token, none) := by
  have h3 : spaceRun (lit "   ") ∧ lit "   " ≠ [] := by
    refine ⟨?_, by decide⟩
    intro c hc
    have : c = 0x20 := by simpa [lit] using hc
    subst this; decide
  refine ⟨?_, ?_, ?_, ?_⟩
  · refine GetBearerToken_built tab headers lead scheme sep token (joinExtra extra ++ trail)
      hlead hscheme hsep htoken (endsField_joinExtra extra trail hextra htrail) ?_
    rw [hAuth, List.append_assoc]
  · refine GetBearerToken_built tab _ [] (lit "Bearer") (lit " ") token [] (by simp [spaceRun])
      (EqualFold_Bearer_self tab) ⟨space_lit.2, space_lit.1⟩ htoken (Or.inl rfl) ?_
    rw [Get_authHeaders, show lit "Bearer " = lit "Bearer" ++ lit " " by decide]
    simp
  · refine GetBearerToken_built tab _ [] (lit "bearer") (lit " ") token [] (by simp [spaceRun])
      (EqualFold_bearer_lower tab) ⟨space_lit.2, space_lit.1⟩ htoken (Or.inl rfl) ?_
    rw [Get_authHeaders, show lit "bearer " = lit "bearer" ++ lit " " by decide]
    simp
  · refine GetBearerToken_built tab _ [] (lit "Bearer") (lit "   ") token (lit "   extra")
      (by simp [spaceRun]) (EqualFold_Bearer_self tab) ⟨h3.2, h3.1⟩ htoken
      (Or.inr ⟨0x20, lit "  extra", by decide, by decide⟩) ?_
    rw [Get_authHeaders, show lit "Bearer   " = lit "Bearer" ++ lit "   " by decide]
    simp

/-- Witness of C1: the value `"  bEaReR \t tok  x  y "`. -/
theorem GetBearerToken_roundtrip_witness :
    GetBearerToken id (authHeaders (lit "  bEaReR \t tok  x  y ")) = (lit "tok", none) :=
  (GetBearerToken_roundtrip id (authHeaders (lit "  bEaReR \t tok  x  y "))
    (lit "  ") (lit "bEaReR") (lit " \t ") (lit "tok") (lit " ")
    [(lit "  ", lit "x"), (lit "  ", lit "y")]
    (by unfold spaceRun; decide) (by decide) (by unfold spaceRun; decide)
    (by unfold word; decide) (by unfold spaceRun word; decide) (by unfold spaceRun; decide)
    (by decide)).1

/-- C2: `GetBearerToken` returns an error exactly when the value is empty, or has
fewer than two fields, or its first field does not equal `Bearer` under case
folding; the error is `no auth header` exactly when the value is empty; with an
error the returned token is empty; the value `""` and the values
`"Basic " + token` fail. -/
theorem GetBearerToken_error_iff (tab : Nat → Nat) (headers : Header) :
    ((GetBearerToken tab headers).2 ≠ none ↔
      (headers.Get "Authorization" = [] ∨
        (Fields (headers.Get "Authorization")).length < 2 ∨
        ∃ f0, (Fields (headers.Get "Authorization")).head? = some f0 ∧
          EqualFold tab f0 (lit "Bearer") = false)) ∧
    ((GetBearerToken tab headers).2 = some "no auth header" ↔
      headers.Get "Authorization" = []) ∧
    ((GetBearerToken tab headers).2 ≠ none → (GetBearerToken tab headers).1 = []) ∧
    (headers.Get "Authorization" = lit "" → (GetBearerToken tab headers).2 ≠ none) ∧
    (∀ token : GoString, headers.Get "Authorization" = lit "Basic " ++ token →
      (GetBearerToken tab headers).2 ≠ none) := by
  have key : ∀ h : Header, (∃ f0, (Fields (h.Get "Authorization")).head? = some f0 ∧
      EqualFold tab f0 (lit "Bearer") = false) → (GetBearerToken tab h).2 ≠ none := by
    intro h ⟨f0, hh, hE⟩
    by_cases h0 : h.Get "Authorization" = []
    · rw [GetBearerToken_empty tab h h0]; simp
    rcases list_short_or_two (Fields (h.Get "Authorization")) with hs | ⟨g0, g1, more, hf⟩
    · rw [GetBearerToken_few tab h h0 hs]; simp
    · rw [hf] at hh
      simp only [List.head?_cons, Option.some.injEq] at hh
      subst hh
      rw [GetBearerToken_fields tab h g0 g1 more hf, hE]
      simp
  by_cases h0 : headers.Get "Authorization" = []
  · have hr := GetBearerToken_empty tab headers h0
    refine ⟨?_, ?_, ?_, ?_, ?_⟩
    · simp [hr, h0]
    · simp [hr, h0]
    · simp [hr]
    · simp [hr]
    · simp [hr]
  · rcases list_short_or_two (Fields (headers.Get "Authorization")) with hs | ⟨g0, g1, more, hf⟩
    · have hr := GetBearerToken_few tab headers h0 hs
      refine ⟨?_, ?_, ?_, ?_, ?_⟩
      · simp [hr, hs]
      · simp [hr, h0]
      · simp [hr]
      · simp [hr]
      · simp [hr]
    · have hr := GetBearerToken_fields tab headers g0 g1 more hf
      refine ⟨?_, ?_, ?_, ?_, ?_⟩
      · constructor
        · intro he
          refine Or.inr (Or.inr ⟨g0, by simp [hf], ?_⟩)
          cases hE : EqualFold tab g0 (lit "Bearer")
          · rfl
          · rw [hr, hE] at he
            simp at he
        · rintro (h | h | h)
          · exact absurd h h0
          · rw [hf] at h
            simp only [List.length_cons] at h
            omega
          · exact key headers h
      · rw [hr]
        constructor
        · intro he
          split at he <;> simp at he
        · intro h; exact absurd h h0
      · rw [hr]
        split <;> simp
      · intro h
        exact absurd (by simpa [lit] using h) h0
      · intro token htok
        refine key headers ⟨lit "Basic", ?_, EqualFold_Basic tab⟩
        rw [htok, show lit "Basic " = lit "Basic" ++ lit " " by decide,
          Fields_scheme_rest (lit "Basic") (lit " ") token (by unfold word; decide)
            ⟨space_lit.2, space_lit.1⟩]
        rfl

/-- C3: on no value does `GetBearerToken` return the error `empty token`; on
`"Bearer "` it returns `invalid bearer request`, and so it does on every value
made of a scheme word `Bearer` and white space only. -/
theorem GetBearerToken_empty_token_unreachable (tab : Nat → Nat) :
    (∀ headers : Header, (GetBearerToken tab headers).2 ≠ some "empty token") ∧
    GetBearerToken tab (authHeaders (lit "Bearer ")) = ([], some "invalid bearer request") ∧
    (∀ lead trail : GoString, spaceRun lead → spaceRun trail →
      GetBearerToken tab (authHeaders (lead ++ lit "Bearer" ++ trail))
        = ([], some "invalid bearer request")) := by
  have all : ∀ lead trail : GoString, spaceRun lead → spaceRun trail →
      GetBearerToken tab (authHeaders (lead ++ lit "Bearer" ++ trail))
        = ([], some "invalid bearer request") := by
    intro lead trail hl ht
    have hw : word (lit "Bearer") := by unfold word; decide
    refine GetBearerToken_few tab _ ?_ ?_
    · rw [Get_authHeaders]
      intro h
      have : (lead ++ lit "Bearer" ++ trail).length = 0 := by rw [h]; rfl
      rw [lit_Bearer] at this
      simp at this
    · rw [Get_authHeaders]
      unfold Fields
      rw [List.append_assoc, FieldsFunc_skip _ _ _ hl,
        FieldsFunc_word IsSpace _ _ hw.1 hw.2 (endsField_trail trail ht),
        ← List.append_nil trail, FieldsFunc_skip _ _ _ ht]
      simp [FieldsFunc]
  refine ⟨?_, ?_, all⟩
  · intro headers
    by_cases h0 : headers.Get "Authorization" = []
    · rw [GetBearerToken_empty tab headers h0]; decide
    rcases list_short_or_two (Fields (headers.Get "Authorization")) with hs | ⟨g0, g1, more, hf⟩
    · rw [GetBearerToken_few tab headers h0 hs]; decide
    · rw [GetBearerToken_fields tab headers g0 g1 more hf]
      split
      · simp
      · decide
  · have := all [] (lit " ") (by simp [spaceRun]) space_lit.1
    simpa [show lit "Bearer " = lit "Bearer" ++ lit " " by decide] using this


/-- C4: for scheme words `s1` and `s2` that equal `ApiKey` and `Bearer` under case
folding, `GetAPIKey` on `s1 + " " + rest` succeeds exactly when `GetBearerToken`
on `s2 + " " + rest` succeeds, and then both return the first field of `rest`. -/
theorem GetAPIKey_matches_GetBearerToken (tab : Nat → Nat) (hA hB : Header)
    (s1 s2 rest : GoString) (h1 : EqualFold tab s1 (lit "ApiKey") = true)
    (h2 : EqualFold tab s2 (lit "Bearer") = true)
    (hAv : hA.Get "Authorization" = s1 ++ lit " " ++ rest)
    (hBv : hB.Get "Authorization" = s2 ++ lit " " ++ rest) :
    ((GetAPIKey tab hA).2 = none ↔ (GetBearerToken tab hB).2 = none) ∧
    ((GetAPIKey tab hA).2 = none →
      (GetAPIKey tab hA).1 = (GetBearerToken tab hB).1 ∧
      (Fields rest).head? = some (GetAPIKey tab hA).1) ∧
    ((GetAPIKey tab hA).2 = none ↔ Fields rest ≠ []) := by
  have hfA := Fields_scheme_rest s1 (lit " ") rest (ApiKey_word tab s1 h1)
    ⟨space_lit.2, space_lit.1⟩
  have hfB := Fields_scheme_rest s2 (lit " ") rest (Bearer_word tab s2 h2)
    ⟨space_lit.2, space_lit.1⟩
  rw [← hAv] at hfA
  rw [← hBv] at hfB
  cases hr : Fields rest with
  | nil =>
    rw [hr] at hfA hfB
    have a := GetAPIKey_short tab hA (by rw [hfA]; simp)
    have b := GetBearerToken_short tab hB (by rw [hfB]; simp)
    have b2 : (GetBearerToken tab hB).2 ≠ none := by
      rcases b.2 with h | h <;> rw [h] <;> simp
    refine ⟨?_, ?_, ?_⟩
    · exact ⟨fun h => absurd h a.2, fun h => absurd h b2⟩
    · intro h; exact absurd h a.2
    · exact ⟨fun h => absurd h a.2, fun h => absurd rfl h⟩
  | cons f1 more =>
    rw [hr] at hfA hfB
    have a := GetAPIKey_fields tab hA s1 f1 more hfA
    have b := GetBearerToken_fields tab hB s2 f1 more hfB
    rw [if_pos h1] at a
    rw [if_pos h2] at b
    simp [a, b]

/-- Witness of C4: the scheme spellings `apikey` and `BEARER` before `k1 more`. -/
theorem GetAPIKey_matches_GetBearerToken_witness :
    GetAPIKey id (authHeaders (lit "apikey k1 more")) = (lit "k1", none) ∧
    ((GetAPIKey id (authHeaders (lit "apikey k1 more"))).2 = none ↔
      (GetBearerToken id (authHeaders (lit "BEARER k1 more"))).2 = none) :=
  ⟨by decide,
   (GetAPIKey_matches_GetBearerToken id (authHeaders (lit "apikey k1 more"))
      (authHeaders (lit "BEARER k1 more")) (lit "apikey") (lit "BEARER") (lit "k1 more")
      (by decide) (by decide) (by decide) (by decide)).1⟩

/-- C10: no header map makes both `GetBearerToken` and `GetAPIKey` succeed. -/
theorem bearer_and_apikey_exclusive (tab : Nat → Nat) (headers : Header) :
    ¬ ((GetBearerToken tab headers).2 = none ∧ (GetAPIKey tab headers).2 = none) := by
  rintro ⟨hb, ha⟩
  rcases list_short_or_two (Fields (headers.Get "Authorization")) with hs | ⟨f0, f1, more, hf⟩
  · exact (GetAPIKey_short tab headers hs).2 ha
  · rw [GetBearerToken_fields tab headers f0 f1 more hf] at hb
    rw [GetAPIKey_fields tab headers f0 f1 more hf] at ha
    have eb : EqualFold tab f0 (lit "Bearer") = true := by
      cases h : EqualFold tab f0 (lit "Bearer")
      · rw [h] at hb; simp at hb
      · rfl
    have ea : EqualFold tab f0 (lit "ApiKey") = true := by
      cases h : EqualFold tab f0 (lit "ApiKey")
      · rw [h] at ha; simp at ha
      · rfl
    rw [lit_Bearer] at eb
    rw [lit_ApiKey] at ea
    cases f0 with
    | nil => simp [EqualFold] at eb
    | cons c cs =>
      have b := (runeEqualFold_upper tab c _ (by decide) (by decide) (by decide)
        (by decide)).mp (EqualFold_head tab _ _ _ _ eb)
      have a := (runeEqualFold_upper tab c _ (by decide) (by decide) (by decide)
        (by decide)).mp (EqualFold_head tab _ _ _ _ ea)
      omega


/-- C5: when the random source succeeds with a 32-byte value, `MakeRefreshToken`
returns without error the lowercase hexadecimal encoding of that value, a string
of 64 characters, each one of `0`-`9` and `a`-`f`; another 32-byte value gives
another token. -/
theorem MakeRefreshToken_hex (read : Nat → Except String (List Byte)) (key : List Byte)
    (hread : read 32 = .ok key) (hlen : key.length = 32) :
    MakeRefreshToken read = (hexEncodeSpec key, none) ∧
    (MakeRefreshToken read).1.length = 64 ∧
    (∀ c ∈ (MakeRefreshToken read).1, isLowerHex c) ∧
    (∀ (other : Nat → Except String (List Byte)) (key2 : List Byte),
      other 32 = .ok key2 → key2.length = 32 → key2 ≠ key →
      (MakeRefreshToken other).1 ≠ (MakeRefreshToken read).1) := by
  have hr : ∀ (r : Nat → Except String (List Byte)) (k : List Byte), r 32 = .ok k →
      MakeRefreshToken r = (hexEncodeSpec k, none) := by
    intro r k h
    simp [MakeRefreshToken, h, EncodeToString_eq_spec]
  refine ⟨hr read key hread, ?_, ?_, ?_⟩
  · rw [hr read key hread]
    show (hexEncodeSpec key).length = 64
    rw [hexEncodeSpec_length, hlen]
  · rw [hr read key hread]
    exact hexEncodeSpec_lower key
  · intro other key2 ho hl2 hne heq
    rw [hr read key hread, hr other key2 ho] at heq
    exact hne (hexEncodeSpec_inj key2 key (by rw [hl2, hlen]) heq)

/-- Witness of C5: the random source draws thirty-two bytes `0xAB`. -/
theorem MakeRefreshToken_hex_witness :
    MakeRefreshToken (fun _ => .ok (List.replicate 32 0xAB))
      = (hexEncodeSpec (List.replicate 32 0xAB), none) :=
  (MakeRefreshToken_hex (fun _ => .ok (List.replicate 32 0xAB)) (List.replicate 32 0xAB)
    rfl (by decide)).1

/-- C6: a token minted for identity `i` with a non-empty secret and a TTL `t > 0`
at time `now` is validated with the same secret at any time before `now + t`, and
the validation returns `i`. -/
theorem ValidateJWT_MakeJWT (S : TokenScheme)
    (hwire : ∀ claims signature, S.decode (S.encode claims signature) = some (claims, signature))
    (i : UUID) (secret : GoString) (t now later : Nat) (hsecret : secret ≠ []) (ht : 0 < t)
    (hnow : now ≤ later) (hlater : later < now + t) :
    (MakeJWT S now i secret t).2 = none ∧
    ValidateJWT S later (MakeJWT S now i secret t).1 secret = .ok i := by
  have _hspan : now < later + t := by omega
  refine ⟨rfl, ?_⟩
  simp only [MakeJWT, ValidateJWT, hwire]
  rw [if_neg hsecret, if_neg (by simp), if_neg (by omega)]

/-- Witness of C6: identity 7, secret `s3cret`, a TTL of 3600 from time 100,
validated at time 3699. -/
theorem ValidateJWT_MakeJWT_witness :
    ValidateJWT plainScheme 3699 (MakeJWT plainScheme 100 7 (lit "s3cret") 3600).1 (lit "s3cret")
      = .ok 7 :=
  (ValidateJWT_MakeJWT plainScheme plainScheme_decode_encode 7 (lit "s3cret") 3600 100 3699
    (by decide) (by decide) (by decide) (by decide)).2

/-- C7: with the empty secret `ValidateJWT` returns an error on every token
string, also on a token minted with the empty secret, and never an identity. -/
theorem ValidateJWT_empty_secret (S : TokenScheme) (now : Nat) (tokenString : GoString) :
    (∃ e, ValidateJWT S now tokenString [] = .error e) ∧
    (∀ i, ValidateJWT S now tokenString [] ≠ .ok i) ∧
    (∀ (minted i : UUID) (t before : Nat),
      ValidateJWT S now (MakeJWT S before minted [] t).1 [] ≠ .ok i) := by
  have h : ∀ tok, ∃ e, ValidateJWT S now tok [] = .error e := by
    intro tok
    unfold ValidateJWT
    split
    · exact ⟨_, rfl⟩
    · exact ⟨_, if_pos rfl⟩
  refine ⟨h tokenString, ?_, ?_⟩
  · intro i hi
    obtain ⟨e, he⟩ := h tokenString
    rw [he] at hi
    cases hi
  · intro minted i t before hi
    obtain ⟨e, he⟩ := h (MakeJWT S before minted [] t).1
    rw [he] at hi
    cases hi

/-! ### The TTL that reaches `MakeJWT` -/

theorem loginTTL_value : loginTTL = 3600000000000 := by decide

theorem refreshTTL_value : refreshTTL = 3600000000000 := by decide

/-- What `handlerLogin` does once the password check has succeeded: it calls
`MakeJWT` with a TTL of 3,600,000,000,000, fails when that call fails, and
answers with the token of that call when the rest succeeds. -/
theorem handlerLogin_mint {σ : Type} (env : Env σ) (cfg : apiConfig) (db : σ) (req : Request)
    (params : parameters) (usr : DBUser) (hd : env.Decode req.Body = .ok params)
    (hu : env.GetUserByEmail db params.Email = .ok usr)
    (hc : CheckPasswordHash env usr.HashedPassword params.Password = none) :
    (handlerLogin env cfg db req).calls.head?
      = some (.MakeJWT usr.ID cfg.jwt_secret 3600000000000) ∧
    (∀ t e, env.MakeJWT usr.ID cfg.jwt_secret 3600000000000 = (t, some e) →
      (handlerLogin env cfg db req).response
        = ⟨StatusInternalServerError, .error "Unable to create access JWT"⟩) ∧
    (∀ token refreshToken db1,
      env.MakeJWT usr.ID cfg.jwt_secret 3600000000000 = (token, none) →
      MakeRefreshToken env.read = (refreshToken, none) →
      env.CreateRefreshToken db
          { Token := refreshToken, UserID := usr.ID, ExpiresAt := env.AddDate env.Now 0 0 60 }
        = (none, db1) →
      (handlerLogin env cfg db req).response
          = ⟨StatusOK, .login usr.ID usr.CreatedAt usr.UpdatedAt usr.Email usr.IsChirpyRed
              token refreshToken⟩ ∧
        (handlerLogin env cfg db req).store = db1) := by
  refine ⟨?_, ?_, ?_⟩
  · unfold handlerLogin
    simp only [hd, hu, hc, loginTTL_value]
    split
    · rfl
    split
    · rfl
    split <;> rfl
  · intro t e hj
    unfold handlerLogin
    simp only [hd, hu, hc, loginTTL_value, hj]
  · intro token refreshToken db1 hj hr hs
    unfold handlerLogin
    simp only [hd, hu, hc, loginTTL_value, hj, hr, hs, and_self]

/-- The token of a login response was returned by `MakeJWT` for the user of the
response and a TTL of 3,600,000,000,000. -/
theorem handlerLogin_token_minted {σ : Type} (env : Env σ) (cfg : apiConfig) (db : σ)
    (req : Request) (id : UUID) (ca ua : Int) (em : GoString) (red : Bool)
    (token rt : GoString)
    (h : (handlerLogin env cfg db req).response.payload = .login id ca ua em red token rt) :
    env.MakeJWT id cfg.jwt_secret 3600000000000 = (token, none) := by
  unfold handlerLogin at h
  split at h
  · cases h
  split at h
  · cases h
  split at h
  · cases h
  split at h
  · cases h
  rename_i tk hj
  split at h
  · cases h
  dsimp only at h
  split at h
  · cases h
  · cases h
    rw [← loginTTL_value]
    exact hj

/-- The outcome of `handlerLogin` depends on `MakeJWT` through its value at a TTL
of 3,600,000,000,000 alone. -/
theorem handlerLogin_only_ttl {σ : Type} (env : Env σ) (cfg : apiConfig) (db : σ)
    (req : Request) :
    handlerLogin env cfg db req
      = handlerLogin { env with MakeJWT := fun u s _ => env.MakeJWT u s 3600000000000 }
          cfg db req := by
  unfold handlerLogin CheckPasswordHash
  simp only [loginTTL_value]

/-- What `handlerRefresh` does once the refresh token has been resolved: it
calls `MakeJWT` with a TTL of 3,600,000,000,000 and answers with the token of
that call. -/
theorem handlerRefresh_mint {σ : Type} (env : Env σ) (cfg : apiConfig) (db : σ)
    (req : Request) (incoming : GoString) (usr : DBUser)
    (hb : GetBearerToken env.tab req.Header = (incoming, none))
    (hu : env.GetUserFromRefreshToken db incoming = .ok usr) :
    (handlerRefresh env cfg db req).calls
      = [.MakeJWT usr.ID cfg.jwt_secret 3600000000000] ∧
    (∀ t e, env.MakeJWT usr.ID cfg.jwt_secret 3600000000000 = (t, some e) →
      (handlerRefresh env cfg db req).response
        = ⟨StatusUnauthorized, .error "Unable to validate token"⟩) ∧
    (∀ token, env.MakeJWT usr.ID cfg.jwt_secret 3600000000000 = (token, none) →
      (handlerRefresh env cfg db req).response = ⟨StatusOK, .refresh token⟩) := by
  refine ⟨?_, ?_, ?_⟩
  · unfold handlerRefresh
    simp only [hb, hu, refreshTTL_value]
    split <;> rfl
  · intro t e hj
    unfold handlerRefresh
    simp only [hb, hu, refreshTTL_value, hj]
  · intro token hj
    unfold handlerRefresh
    simp only [hb, hu, refreshTTL_value, hj]

/-- The token of a refresh response was returned by `MakeJWT` for the owner of
the refresh token and a TTL of 3,600,000,000,000. -/
theorem handlerRefresh_token_minted {σ : Type} (env : Env σ) (cfg : apiConfig) (db : σ)
    (req : Request) (token : GoString)
    (h : (handlerRefresh env cfg db req).response.payload = .refresh token) :
    ∃ incoming usr, GetBearerToken env.tab req.Header = (incoming, none) ∧
      env.GetUserFromRefreshToken db incoming = .ok usr ∧
      env.MakeJWT usr.ID cfg.jwt_secret 3600000000000 = (token, none) := by
  unfold handlerRefresh at h
  split at h
  · cases h
  rename_i incoming hb
  split at h
  · cases h
  rename_i usr hu
  split at h
  · cases h
  · rename_i tk hj
    cases h
    exact ⟨incoming, usr, hb, hu, by rw [← refreshTTL_value]; exact hj⟩

/-- The outcome of `handlerRefresh` depends on `MakeJWT` through its value at a
TTL of 3,600,000,000,000 alone. -/
theorem handlerRefresh_only_ttl {σ : Type} (env : Env σ) (cfg : apiConfig) (db : σ)
    (req : Request) :
    handlerRefresh env cfg db req
      = handlerRefresh { env with MakeJWT := fun u s _ => env.MakeJWT u s 3600000000000 }
          cfg db req := by
  unfold handlerRefresh
  simp only [refreshTTL_value]

/-- C8: the TTL that `handlerLogin` passes to `MakeJWT` is 3600 seconds, that is
3,600,000,000,000 nanoseconds, the product `3600 * time.Second` lies within
`int64`, and `handlerRefresh` passes the same TTL.  Once the password check has
succeeded `handlerLogin` calls `MakeJWT` with that TTL first of all, fails when
that call fails and otherwise answers with its token; every token of a login
response is the result of `MakeJWT` at that TTL; the outcome depends on `MakeJWT`
at no other TTL; and the same holds of `handlerRefresh` once the refresh token
has been resolved. -/
theorem loginTTL_one_hour {σ : Type} (env : Env σ) (cfg : apiConfig) (db : σ)
    (req : Request) :
    loginTTL = 3600000000000 ∧ loginTTL = 3600 * Second ∧ Second = 1000000000 ∧
    (-(2 : Int) ^ 63 ≤ 3600 * Second ∧ 3600 * Second < (2 : Int) ^ 63) ∧
    loginTTL = Hour ∧ loginTTL = refreshTTL ∧
    (∀ (uid : UUID) (secret : GoString) (ttl : Int),
      Call.MakeJWT uid secret ttl ∈ (handlerLogin env cfg db req).calls →
        ttl = 3600000000000) ∧
    (∀ (uid : UUID) (secret : GoString) (ttl : Int),
      Call.MakeJWT uid secret ttl ∈ (handlerRefresh env cfg db req).calls →
        ttl = 3600000000000) ∧
    (∀ (params : parameters) (usr : DBUser), env.Decode req.Body = .ok params →
      env.GetUserByEmail db params.Email = .ok usr →
      CheckPasswordHash env usr.HashedPassword params.Password = none →
      (handlerLogin env cfg db req).calls.head?
        = some (.MakeJWT usr.ID cfg.jwt_secret 3600000000000) ∧
      (∀ t e, env.MakeJWT usr.ID cfg.jwt_secret 3600000000000 = (t, some e) →
        (handlerLogin env cfg db req).response
          = ⟨StatusInternalServerError, .error "Unable to create access JWT"⟩) ∧
      (∀ token refreshToken db1,
        env.MakeJWT usr.ID cfg.jwt_secret 3600000000000 = (token, none) →
        MakeRefreshToken env.read = (refreshToken, none) →
        env.CreateRefreshToken db
            { Token := refreshToken, UserID := usr.ID,
              ExpiresAt := env.AddDate env.Now 0 0 60 }
          = (none, db1) →
        (handlerLogin env cfg db req).response
            = ⟨StatusOK, .login usr.ID usr.CreatedAt usr.UpdatedAt usr.Email usr.IsChirpyRed
                token refreshToken⟩ ∧
          (handlerLogin env cfg db req).store = db1)) ∧
    (∀ (id : UUID) (ca ua : Int) (em : GoString) (red : Bool) (token rt : GoString),
      (handlerLogin env cfg db req).response.payload = .login id ca ua em red token rt →
        env.MakeJWT id cfg.jwt_secret 3600000000000 = (token, none)) ∧
    handlerLogin env cfg db req
      = handlerLogin { env with MakeJWT := fun u s _ => env.MakeJWT u s 3600000000000 }
          cfg db req ∧
    (∀ (incoming : GoString) (usr : DBUser),
      GetBearerToken env.tab req.Header = (incoming, none) →
      env.GetUserFromRefreshToken db incoming = .ok usr →
      (handlerRefresh env cfg db req).calls
        = [.MakeJWT usr.ID cfg.jwt_secret 3600000000000] ∧
      (∀ t e, env.MakeJWT usr.ID cfg.jwt_secret 3600000000000 = (t, some e) →
        (handlerRefresh env cfg db req).response
          = ⟨StatusUnauthorized, .error "Unable to validate token"⟩) ∧
      (∀ token, env.MakeJWT usr.ID cfg.jwt_secret 3600000000000 = (token, none) →
        (handlerRefresh env cfg db req).response = ⟨StatusOK, .refresh token⟩)) ∧
    (∀ token : GoString,
      (handlerRefresh env cfg db req).response.payload = .refresh token →
        ∃ incoming usr, GetBearerToken env.tab req.Header = (incoming, none) ∧
          env.GetUserFromRefreshToken db incoming = .ok usr ∧
          env.MakeJWT usr.ID cfg.jwt_secret 3600000000000 = (token, none)) ∧
    handlerRefresh env cfg db req
      = handlerRefresh { env with MakeJWT := fun u s _ => env.MakeJWT u s 3600000000000 }
          cfg db req := by
  have hl : loginTTL = 3600000000000 := by decide
  have hr : refreshTTL = 3600000000000 := by decide
  refine ⟨hl, by decide, by decide, by decide, by decide, by decide, ?_, ?_,
    fun params usr hd hu hc => handlerLogin_mint env cfg db req params usr hd hu hc,
    fun id ca ua em red token rt h =>
      handlerLogin_token_minted env cfg db req id ca ua em red token rt h,
    handlerLogin_only_ttl env cfg db req,
    fun incoming usr hb hu => handlerRefresh_mint env cfg db req incoming usr hb hu,
    fun token h => handlerRefresh_token_minted env cfg db req token h,
    handlerRefresh_only_ttl env cfg db req⟩
  · intro uid secret ttl h
    unfold handlerLogin at h
    rw [← hl]
    split at h
    · simp at h
    split at h
    · simp at h
    split at h
    · simp at h
    split at h
    · simp at h; exact h.2.2
    split at h
    · simp at h; exact h.2.2
    dsimp only at h
    split at h <;> (simp at h; exact h.2.2)
  · intro uid secret ttl h
    unfold handlerRefresh at h
    rw [← hr]
    split at h
    · simp at h
    split at h
    · simp at h
    split at h <;> (simp at h; exact h.2.2)

/-- Witness of C8: with a `MakeJWT` that signs for a TTL of 3,600,000,000,000
only, the login of `a@b` answers 200 with the token signed for user 7 and stores
one refresh token, and the refresh with `Bearer ab` answers 200 with the same
token. -/
theorem loginTTL_one_hour_witness :
    ((handlerLogin hourEnv ⟨lit "k"⟩ 0 ⟨authHeaders (lit "Bearer ab"), lit "a@b"⟩).response
        = ⟨StatusOK, .login 7 1 2 (lit "a@b") false (7 :: lit "k")
            (EncodeToString (List.replicate 32 0))⟩ ∧
      (handlerLogin hourEnv ⟨lit "k"⟩ 0 ⟨authHeaders (lit "Bearer ab"), lit "a@b"⟩).store = 1) ∧
    (handlerRefresh hourEnv ⟨lit "k"⟩ 0 ⟨authHeaders (lit "Bearer ab"), lit "a@b"⟩).response
      = ⟨StatusOK, .refresh (7 :: lit "k")⟩ :=
  ⟨((loginTTL_one_hour hourEnv ⟨lit "k"⟩ 0
        ⟨authHeaders (lit "Bearer ab"), lit "a@b"⟩).2.2.2.2.2.2.2.2.1
      { Email := lit "a@b", Password := lit "a@b" }
      { ID := 7, CreatedAt := 1, UpdatedAt := 2, Email := lit "a@b", HashedPassword := [],
        IsChirpyRed := false }
      rfl rfl rfl).2.2 (7 :: lit "k") (EncodeToString (List.replicate 32 0)) 1 rfl rfl rfl,
   ((loginTTL_one_hour hourEnv ⟨lit "k"⟩ 0
        ⟨authHeaders (lit "Bearer ab"), lit "a@b"⟩).2.2.2.2.2.2.2.2.2.2.2.1
      (lit "ab")
      { ID := 7, CreatedAt := 1, UpdatedAt := 2, Email := lit "a@b", HashedPassword := [],
        IsChirpyRed := false }
      (by decide) rfl).2.2 (7 :: lit "k") rfl⟩

theorem Index_cons_single (c x : Nat) (rest : GoString) :
    Index (x :: rest) [c]
      = if c = x then some 0 else (Index rest [c]).map (fun i => i + 1) := by
  rw [Index]
  by_cases h : c = x
  · simp [h, List.isPrefixOf]
  · simp [h, List.isPrefixOf]

theorem Index_single_none (c : Nat) : ∀ s : GoString, c ∉ s → Index s [c] = none
  | [], _ => by simp [Index]
  | x :: rest, h => by
      have hx : c ≠ x := fun e => h (e ▸ List.mem_cons_self _ _)
      have hr : c ∉ rest := fun e => h (List.mem_cons_of_mem _ e)
      rw [Index_cons_single, if_neg hx, Index_single_none c rest hr]
      rfl

theorem Index_single_append (c : Nat) (rest : GoString) :
    ∀ w : GoString, c ∉ w → Index (w ++ c :: rest) [c] = some w.length
  | [], _ => by rw [List.nil_append, Index_cons_single, if_pos rfl]; rfl
  | x :: w, h => by
      have hx : c ≠ x := fun e => h (e ▸ List.mem_cons_self _ _)
      have hr : c ∉ w := fun e => h (List.mem_cons_of_mem _ e)
      rw [List.cons_append, Index_cons_single, if_neg hx, Index_single_append c rest w hr]
      rfl

theorem first_occurrence (c : Nat) :
    ∀ s : GoString, c ∈ s → ∃ w rest, s = w ++ c :: rest ∧ c ∉ w
  | [], h => by simp at h
  | x :: s, h => by
      by_cases hx : c = x
      · exact ⟨[], s, by simp [hx], by simp⟩
      · have hs : c ∈ s := by
          rcases List.mem_cons.mp h with e | e
          · exact absurd e hx
          · exact e
        obtain ⟨w, rest, e, hw⟩ := first_occurrence c s hs
        refine ⟨x :: w, rest, by simp [e], ?_⟩
        intro hm
        rcases List.mem_cons.mp hm with e2 | e2
        · exact hx e2
        · exact hw e2

theorem drop_past (c : Nat) (w rest : GoString) :
    (w ++ c :: rest).drop (w.length + [c].length) = rest := by
  have : w ++ c :: rest = (w ++ [c]) ++ rest := by simp
  rw [this]
  have hl : w.length + [c].length = (w ++ [c]).length := by simp
  rw [hl, List.drop_left]

theorem count_cut (c : Nat) (w rest : GoString) (hw : c ∉ w) :
    (w ++ c :: rest).count c = rest.count c + 1 := by
  rw [List.count_append, List.count_cons_self, List.count_eq_zero_of_not_mem hw]
  omega

theorem countLoop_single (c : Nat) :
    ∀ (fuel : Nat) (s : GoString), s.length < fuel → countLoop [c] fuel s = s.count c
  | 0, _, h => by omega
  | fuel + 1, s, h => by
      by_cases hc : c ∈ s
      · obtain ⟨w, rest, rfl, hw⟩ := first_occurrence c s hc
        have hlen : rest.length < fuel := by
          simp only [List.length_append, List.length_cons] at h
          omega
        rw [countLoop, Index_single_append c rest w hw]
        simp only
        rw [drop_past, countLoop_single c fuel rest hlen, count_cut c w rest hw]
      · rw [countLoop, Index_single_none c s hc]
        simp only
        exact (List.count_eq_zero_of_not_mem hc).symm

theorem Count_single (c : Nat) (s : GoString) : Count s [c] = s.count c := by
  unfold Count
  rw [if_neg (by simp)]
  exact countLoop_single c _ s (Nat.lt_succ_self _)

theorem genSplitLoop_free (c : Nat) (n : Nat) (w : GoString) (hw : c ∉ w) :
    genSplitLoop [c] n w = [w] := by
  cases n with
  | zero => rfl
  | succ n => rw [genSplitLoop, Index_single_none c w hw]

theorem genSplitLoop_cut (c : Nat) (n : Nat) (w rest : GoString) (hw : c ∉ w) :
    genSplitLoop [c] (n + 1) (w ++ c :: rest) = w :: genSplitLoop [c] n rest := by
  rw [genSplitLoop, Index_single_append c rest w hw]
  simp only
  rw [drop_past, List.take_left]

theorem Split_single (c : Nat) (s : GoString) :
    Split s [c] = genSplitLoop [c] (s.count c) s := by
  unfold Split
  rw [if_neg (by simp), Count_single]

/-- The elements that `Split` cuts around a rune do not hold that rune, and
there is at least one element. -/
theorem genSplitLoop_elems (c : Nat) :
    ∀ (n : Nat) (s : GoString), s.count c = n →
      genSplitLoop [c] n s ≠ [] ∧ ∀ x ∈ genSplitLoop [c] n s, c ∉ x
  | 0, s, h => by
      have hs : c ∉ s := List.count_eq_zero.mp h
      rw [genSplitLoop_free c 0 s hs]
      refine ⟨by simp, ?_⟩
      intro x hx
      rw [List.mem_singleton.mp hx]
      exact hs
  | n + 1, s, h => by
      have hc : c ∈ s := List.count_pos_iff.mp (by omega)
      obtain ⟨w, rest, rfl, hw⟩ := first_occurrence c s hc
      rw [count_cut c w rest hw] at h
      have ih := genSplitLoop_elems c n rest (by omega)
      rw [genSplitLoop_cut c n w rest hw]
      refine ⟨by simp, ?_⟩
      intro x hx
      rcases List.mem_cons.mp hx with e | e
      · rw [e]; exact hw
      · exact ih.2 x e

theorem Join_cons (e : GoString) (rest : List GoString) (sep : GoString) :
    Join (e :: rest) sep = e ++ joinRest sep rest := by
  cases rest with
  | nil => simp [Join, joinRest]
  | cons r more => rfl

theorem joinRest_single (c : Nat) :
    ∀ (ws : List GoString) (w : GoString), c ∉ w → (∀ x ∈ ws, c ∉ x) →
      (w ++ joinRest [c] ws).count c = ws.length ∧
      genSplitLoop [c] ws.length (w ++ joinRest [c] ws) = w :: ws
  | [], w, hw, _ => by
      simp only [joinRest, List.append_nil, List.length_nil]
      exact ⟨List.count_eq_zero_of_not_mem hw, genSplitLoop_free c 0 w hw⟩
  | v :: more, w, hw, h => by
      have hv : c ∉ v := h v (List.mem_cons_self _ _)
      have ih := joinRest_single c more v hv (fun x hx => h x (List.mem_cons_of_mem _ hx))
      have e : w ++ joinRest [c] (v :: more) = w ++ c :: (v ++ joinRest [c] more) := by
        simp [joinRest]
      rw [e, count_cut c w _ hw, List.length_cons, genSplitLoop_cut c _ w _ hw, ih.1, ih.2]
      exact ⟨rfl, rfl⟩

/-- Splitting what `Join` wrote gives the elements back, when none of them
holds the separator. -/
theorem Split_Join (c : Nat) (ws : List GoString) (hne : ws ≠ []) (h : ∀ x ∈ ws, c ∉ x) :
    Split (Join ws [c]) [c] = ws := by
  cases ws with
  | nil => exact absurd rfl hne
  | cons w rest =>
    have hw : c ∉ w := h w (List.mem_cons_self _ _)
    have hr := joinRest_single c rest w hw (fun x hx => h x (List.mem_cons_of_mem _ hx))
    rw [Join_cons, Split_single, hr.1, hr.2]

/-! ### `cleanChirpBody` -/

theorem lit_space : lit " " = [0x20] := by decide

theorem lit_stars : lit "****" = [0x2A, 0x2A, 0x2A, 0x2A] := by decide

theorem ToLower_stars (lowerTab : Nat → Nat) : ToLower lowerTab (lit "****") = lit "****" := by
  rw [lit_stars]
  simp [ToLower, unicodeToLower, MaxASCII]

theorem cleanChirpBody_examples :
    cleanChirpBody id (lit "This is a kerfuffle opinion I need to share with the world")
        handlerBadWords
      = lit "This is a **** opinion I need to share with the world" ∧
    cleanChirpBody id
        (lit "I hear Mastodon is better than Chirpy. sharbert I need to migrate Fornax! FORNAX")
        handlerBadWords
      = lit "I hear Mastodon is better than Chirpy. **** I need to migrate Fornax! ****" ∧
    cleanChirpBody id (lit " a  kerfuffle ") handlerBadWords = lit " a  **** " ∧
    cleanChirpBody id (lit "") handlerBadWords = lit "" ∧
    Split (lit "a, b, c") (lit ", ") = [lit "a", lit "b", lit "c"] ∧
    Split (lit "abc") (lit "") = [lit "a", lit "b", lit "c"] ∧
    Join [lit "a", lit "b", lit "c"] (lit "-") = lit "a-b-c" := by decide

/-- The elements that `cleanChirpBody` joins: there is one at least, none holds
a space, and the replacement leaves each of them as it is. -/
theorem cleaned_words (lowerTab : Nat → Nat) (msg : GoString) (badWords : List GoString)
    (hstars : lit "****" ∉ badWords) :
    let f := fun word : GoString =>
      if ToLower lowerTab word ∈ badWords then lit "****" else word
    (Split msg [0x20]).map f ≠ [] ∧
    (∀ x ∈ (Split msg [0x20]).map f, 0x20 ∉ x) ∧
    ((Split msg [0x20]).map f).map f = (Split msg [0x20]).map f := by
  intro f
  have hs := genSplitLoop_elems 0x20 _ msg rfl
  rw [← Split_single] at hs
  have hstar : f (lit "****") = lit "****" := by
    show (if ToLower lowerTab (lit "****") ∈ badWords then lit "****" else lit "****") = _
    rw [ToLower_stars, if_neg hstars]
  have hff : ∀ x, f (f x) = f x := by
    intro x
    by_cases hx : ToLower lowerTab x ∈ badWords
    · have e : f x = lit "****" := if_pos hx
      rw [e, hstar]
    · have e : f x = x := if_neg hx
      rw [e, e]
  refine ⟨?_, ?_, ?_⟩
  · intro e
    exact hs.1 (List.map_eq_nil_iff.mp e)
  · intro x hx
    obtain ⟨y, hy, rfl⟩ := List.mem_map.mp hx
    by_cases hb : ToLower lowerTab y ∈ badWords
    · have e : f y = lit "****" := if_pos hb
      rw [e, lit_stars]
      decide
    · have e : f y = y := if_neg hb
      rw [e]
      exact hs.2 y hy
  · rw [List.map_map]
    exact List.map_congr_left (fun x _ => hff x)

/-- The chirp that `handlerValidateChirp` writes comes from the row that
`CreateChirp` returned for the cleaned body. -/
theorem validateChirpFrom_chirp {σ : Type} (env : ChirpEnv σ) (cfg : apiConfig) (db : σ)
    (req : Request) (params : Parameters) (early : List (Nat × ChirpPayload))
    (hearly : ∀ w ∈ early, ∃ msg, w.2 = ChirpPayload.error msg)
    (st : Nat) (id : UUID) (ca ua : Int) (body : GoString) (uid : UUID)
    (hw : (st, ChirpPayload.chirp id ca ua body uid)
      ∈ (validateChirpFrom env cfg db req params early).writes) :
    ∃ arg chirp, (validateChirpFrom env cfg db req params early).created = [arg] ∧
      arg.Body = cleanChirpBody env.lowerTab params.Body handlerBadWords ∧
      (env.CreateChirp db arg).1 = .ok chirp ∧
      (validateChirpFrom env cfg db req params early).store = (env.CreateChirp db arg).2 ∧
      st = StatusCreated ∧
      body = cleanChirpBody env.lowerTab chirp.Body handlerBadWords := by
  have hnot : ∀ (code : Nat) (msg : String),
      (st, ChirpPayload.chirp id ca ua body uid) ∈ early ++ [(code, ChirpPayload.error msg)] →
        False := by
    intro code msg hm
    rcases List.mem_append.mp hm with hm | hm
    · obtain ⟨m, e⟩ := hearly _ hm
      cases e
    · simp at hm
  unfold validateChirpFrom at hw ⊢
  split at hw
  · exact (hnot _ _ hw).elim
  rename_i token hg
  split at hw
  · exact (hnot _ _ hw).elim
  rename_i userID hv
  split at hw
  · exact (hnot _ _ hw).elim
  rename_i hlen
  rw [if_neg hlen]
  dsimp only at hw ⊢
  split at hw
  · exact (hnot _ _ hw).elim
  rename_i chirp db1 hc
  refine ⟨_, chirp, rfl, rfl, by rw [hc], by rw [hc], ?_⟩
  rcases List.mem_append.mp hw with hm | hm
  · obtain ⟨m, e⟩ := hearly _ hm
    cases e
  · simp only [List.mem_singleton, Prod.mk.injEq, ChirpPayload.chirp.injEq] at hm
    exact ⟨hm.1, hm.2.2.2.2.1⟩

/-! ## The claim on `cleanChirpBody` -/

/-- C11: `cleanChirpBody` is idempotent for every message and every set of bad
words that does not hold `****`, the set of `handlerValidateChirp` among them; so
the body in the response of `handlerValidateChirp`, the cleaned body of the row
that `CreateChirp` returned, is the body that was given to `CreateChirp` whenever
the row carries that body. -/
theorem cleanChirpBody_idempotent (lowerTab : Nat → Nat) (msg : GoString)
    (badWords : List GoString) (hstars : lit "****" ∉ badWords) :
    cleanChirpBody lowerTab (cleanChirpBody lowerTab msg badWords) badWords
      = cleanChirpBody lowerTab msg badWords ∧
    cleanChirpBody lowerTab (cleanChirpBody lowerTab msg handlerBadWords) handlerBadWords
      = cleanChirpBody lowerTab msg handlerBadWords ∧
    (∀ (σ : Type) (env : ChirpEnv σ) (cfg : apiConfig) (db : σ) (req : Request) (st : Nat)
        (id : UUID) (ca ua : Int) (body : GoString) (uid : UUID),
      (st, ChirpPayload.chirp id ca ua body uid) ∈ (handlerValidateChirp env cfg db req).writes →
      ∃ arg chirp, (handlerValidateChirp env cfg db req).created = [arg] ∧
        arg.Body = cleanChirpBody env.lowerTab (decodeParams env req).1.Body handlerBadWords ∧
        (env.CreateChirp db arg).1 = .ok chirp ∧
        body = cleanChirpBody env.lowerTab chirp.Body handlerBadWords ∧
        (chirp.Body = arg.Body → body = arg.Body)) := by
  have idem : ∀ (tabL : Nat → Nat) (m : GoString) (bad : List GoString), lit "****" ∉ bad →
      cleanChirpBody tabL (cleanChirpBody tabL m bad) bad = cleanChirpBody tabL m bad := by
    intro tabL m bad hb
    obtain ⟨hne, hfree, hmap⟩ := cleaned_words tabL m bad hb
    unfold cleanChirpBody
    simp only [lit_space]
    rw [Split_Join 0x20 _ hne hfree, hmap]
  have hhandler : lit "****" ∉ handlerBadWords := by decide
  refine ⟨idem lowerTab msg badWords hstars, idem lowerTab msg handlerBadWords hhandler, ?_⟩
  intro σ env cfg db req st id ca ua body uid hw
  have key : ∀ (params : Parameters) (early : List (Nat × ChirpPayload)),
      (∀ w ∈ early, ∃ m, w.2 = ChirpPayload.error m) →
      (st, ChirpPayload.chirp id ca ua body uid)
        ∈ (validateChirpFrom env cfg db req params early).writes →
      ∃ arg chirp, (validateChirpFrom env cfg db req params early).created = [arg] ∧
        arg.Body = cleanChirpBody env.lowerTab params.Body handlerBadWords ∧
        (env.CreateChirp db arg).1 = .ok chirp ∧
        body = cleanChirpBody env.lowerTab chirp.Body handlerBadWords ∧
        (chirp.Body = arg.Body → body = arg.Body) := by
    intro params early he hm
    obtain ⟨arg, chirp, h1, h2, h3, _, _, h6⟩ :=
      validateChirpFrom_chirp env cfg db req params early he st id ca ua body uid hm
    refine ⟨arg, chirp, h1, h2, h3, h6, ?_⟩
    intro hrow
    rw [h6, hrow, h2]
    exact idem env.lowerTab params.Body handlerBadWords hhandler
  unfold handlerValidateChirp at hw ⊢
  split at hw
  · rename_i params e hd
    rw [hd]
    exact key params _ (by intro w hwm; simp at hwm; exact ⟨_, by rw [hwm]⟩) hw
  · rename_i params hd
    rw [hd]
    exact key params [] (by simp) hw

/-- Witness of C11: a message with a double space, bad words in both cases and
the word `****`, cleaned against the bad words `kerfuffle` and `fornax`. -/
theorem cleanChirpBody_idempotent_witness :
    cleanChirpBody id (cleanChirpBody id (lit "a  Kerfuffle fornax! FORNAX ****")
        [lit "kerfuffle", lit "fornax"]) [lit "kerfuffle", lit "fornax"]
      = cleanChirpBody id (lit "a  Kerfuffle fornax! FORNAX ****")
          [lit "kerfuffle", lit "fornax"] :=
  (cleanChirpBody_idempotent id (lit "a  Kerfuffle fornax! FORNAX ****")
    [lit "kerfuffle", lit "fornax"] (by decide)).1

end Chirpy
